import Mathlib

/-!
Verification development for a minimal relational engine
(`src/database/{types,parser,executor}.py`): a shallow embedding of the
value model, the hash index, the query parser's clause-level functions and
the executor's statement interpreters, together with the invariants the
specification states about them.

Modelling conventions:
* Python dictionaries become association lists with first-match lookup,
  in-place value replacement (keeping the originally inserted key object)
  and end insertion — this matches CPython's ordered-dict semantics.
* Python `==` on the runtime values handled by the engine (None, int, str,
  bool, float) is modelled by `pyEq`, which identifies booleans with the
  integers 0/1 and compares numbers numerically, exactly as CPython does
  (`True == 1`, `1 == 1.0`).  Floats are modelled as the exact decimals
  the literal denotes; non-finite float literals (`inf`, `nan`) never
  arise in any statement considered here and fall through to the string
  fallback of the value parser.
* Python `raise` becomes `Except`/error results.  Because the executor
  mutates its table registry in place, a statement that raises can still
  have changed the state; every interpreter therefore returns the
  (possibly partially mutated) state together with the outcome.
-/

namespace RDBMS

/-- An exact decimal number `num / 10 ^ scale`; the representation of the
floats the value parser can produce (every parsed float literal is a
finite decimal). -/
structure Dec where
  num : ℤ
  scale : ℕ
deriving DecidableEq, Repr

/-- Strip factors of ten shared by numerator and scale, giving a canonical
representative of the decimal's rational value (zero normalises to scale
0 because `0 % 10 = 0` at every step). -/
def decNormAux : ℤ → ℕ → ℤ × ℕ
  | n, 0 => (n, 0)
  | n, s + 1 => if n % 10 = 0 then decNormAux (n / 10) s else (n, s + 1)

def decNorm (d : Dec) : Dec :=
  let p := decNormAux d.num d.scale
  ⟨p.1, p.2⟩

/-- Runtime values the engine stores and compares (Python `None`, `int`,
`str`, `bool`, `float`). -/
inductive Value where
  | null
  | int (n : ℤ)
  | str (s : String)
  | bool (b : Bool)
  | float (d : Dec)
deriving DecidableEq, Repr

/-- Canonical key of a value under Python `==`/`hash`: booleans collapse to
the integers 0/1 and all numbers compare numerically (`True == 1`,
`1 == 1.0` in Python). -/
inductive PyKey where
  | knull
  | knum (d : Dec)
  | kstr (s : String)
deriving DecidableEq, Repr

def pyKey : Value → PyKey
  | Value.null => PyKey.knull
  | Value.int n => PyKey.knum ⟨n, 0⟩
  | Value.str s => PyKey.kstr s
  | Value.bool b => PyKey.knum ⟨if b then 1 else 0, 0⟩
  | Value.float d => PyKey.knum (decNorm d)

/-- Python `==` on engine values (used by dict keys, set membership and the
`=`/`!=` condition tests). -/
def pyEq (a b : Value) : Bool := decide (pyKey a = pyKey b)

def strEq (a b : String) : Bool := decide (a = b)

def natEq (a b : Nat) : Bool := decide (a = b)

/-- Association-list lookup, first entry whose key matches. -/
def alookup (eq : κ → κ → Bool) (k : κ) : List (κ × α) → Option α
  | [] => none
  | p :: rest => if eq k p.1 then some p.2 else alookup eq k rest

/-- Python dict assignment `d[k] = v`: replace the value in place (keeping
the stored key) or append a fresh entry at the end. -/
def aset (eq : κ → κ → Bool) (k : κ) (v : α) : List (κ × α) → List (κ × α)
  | [] => [(k, v)]
  | p :: rest => if eq k p.1 then (p.1, v) :: rest else p :: aset eq k v rest

/-- Python `del d[k]` (on a dict whose keys are pairwise distinct). -/
def aerase (eq : κ → κ → Bool) (k : κ) : List (κ × α) → List (κ × α)
  | [] => []
  | p :: rest => if eq k p.1 then rest else p :: aerase eq k rest

/-- A row: dict from column name to value. -/
abbrev Row := List (String × Value)

/-- Python `row.get(name)` with its `None` default. -/
def rowGet (row : Row) (cn : String) : Value := (alookup strEq cn row).getD Value.null

/-- Python `row[name] = v`. -/
def rowSet (row : Row) (cn : String) (v : Value) : Row := aset strEq cn v row

/-- Python `name in row`. -/
def rowHas (row : Row) (cn : String) : Bool := (alookup strEq cn row).isSome

/-- `DataType` enum from `src/database/types.py`. -/
inductive DataType where
  | INT
  | TEXT
  | BOOL
deriving DecidableEq, Repr

/-- The `DataType(...)` constructor call: raises `ValueError` on any other
string. -/
def DataType.ofString : String → Option DataType
  | "INT" => some DataType.INT
  | "TEXT" => some DataType.TEXT
  | "BOOL" => some DataType.BOOL
  | _ => none

def DataType.value : DataType → String
  | DataType.INT => "INT"
  | DataType.TEXT => "TEXT"
  | DataType.BOOL => "BOOL"

/-- `Column` dataclass from `src/database/types.py`. -/
structure Column where
  name : String
  dtype : DataType
  is_primary : Bool
  is_unique : Bool
deriving DecidableEq, Repr

/-- `isinstance(v, int)` — in Python, `bool` is a subclass of `int`. -/
def isPyInt : Value → Bool
  | Value.int _ => true
  | Value.bool _ => true
  | _ => false

def isPyStr : Value → Bool
  | Value.str _ => true
  | _ => false

def isPyBool : Value → Bool
  | Value.bool _ => true
  | _ => false

/-- `Column.validate_value` (types.py lines 25-36): `None` is always valid,
otherwise the runtime type must match the declared type. -/
def Column.validate_value (col : Column) (v : Value) : Bool :=
  if v = Value.null then true
  else
    match col.dtype with
    | DataType.INT => isPyInt v
    | DataType.TEXT => isPyStr v
    | DataType.BOOL => isPyBool v

/-- Hash index from `src/database/types.py`: dict from value to the set of
row-ids currently holding that value (the set modelled as an
insertion-ordered duplicate-free list). -/
structure Index where
  column_name : String
  is_unique : Bool
  entries : List (Value × List Nat)
deriving DecidableEq, Repr

/-- Python `set.add`. -/
def setAdd (rid : Nat) (l : List Nat) : List Nat := if rid ∈ l then l else l ++ [rid]

/-- `Index.insert` (types.py lines 47-58): `None` is never indexed; a
unique index refuses a value that already has a non-empty row-id set. -/
def Index.insert (idx : Index) (v : Value) (rid : Nat) : Index × Bool :=
  if v = Value.null then (idx, true)
  else if idx.is_unique &&
      (match alookup pyEq v idx.entries with
       | some ids => decide (0 < ids.length)
       | none => false) then
    (idx, false)
  else
    let cur := (alookup pyEq v idx.entries).getD []
    ({ idx with entries := aset pyEq v (setAdd rid cur) idx.entries }, true)

/-- `Index.delete` (types.py lines 60-65): discard the row-id, pruning the
value entry when its set becomes empty; no-op when the value is absent. -/
def Index.delete (idx : Index) (v : Value) (rid : Nat) : Index :=
  match alookup pyEq v idx.entries with
  | none => idx
  | some ids =>
    let ids' := ids.filter (fun r => decide (r ≠ rid))
    if ids'.isEmpty then { idx with entries := aerase pyEq v idx.entries }
    else { idx with entries := aset pyEq v ids' idx.entries }

/-- `Index.update` (types.py lines 67-70): delete-then-insert; the delete
is not undone when the insert fails. -/
def Index.update (idx : Index) (oldV newV : Value) (rid : Nat) : Index × Bool :=
  (idx.delete oldV rid).insert newV rid

/-- `Index.search` (types.py lines 72-74). -/
def Index.search (idx : Index) (v : Value) : List Nat :=
  (alookup pyEq v idx.entries).getD []

/-- `Index.has_value` (types.py lines 76-78). -/
def Index.has_value (idx : Index) (v : Value) : Bool :=
  (alookup pyEq v idx.entries).isSome

/-! ## Parser (`src/database/parser.py`)

All string manipulation is done on character lists through structurally
recursive helpers, so every parser function evaluates by kernel
reduction. -/

/-- Python `str.strip()`: remove leading and trailing whitespace. -/
def trimChars (l : List Char) : List Char :=
  ((l.dropWhile Char.isWhitespace).reverse.dropWhile Char.isWhitespace).reverse

def pyStrip (s : String) : String := String.mk (trimChars s.data)

/-- Python `str.upper()` (ASCII). -/
def pyUpper (s : String) : String := String.mk (s.data.map Char.toUpper)

def listIsPrefix : List Char → List Char → Bool
  | [], _ => true
  | _ :: _, [] => false
  | p :: ps, c :: cs => p = c && listIsPrefix ps cs

def listIsInfix (pat : List Char) : List Char → Bool
  | [] => pat.isEmpty
  | c :: rest => listIsPrefix pat (c :: rest) || listIsInfix pat rest

/-- `QueryParser._split_by_commas` (parser.py lines 265-284): split on
commas outside parentheses; each piece is stripped; a trailing empty piece
is dropped. -/
def splitByCommasAux : List Char → List Char → Int → List String → List String
  | [], cur, _, acc =>
      if cur.isEmpty then acc.reverse
      else (String.mk (trimChars cur) :: acc).reverse
  | c :: rest, cur, depth, acc =>
      if c = '(' then splitByCommasAux rest (cur ++ [c]) (depth + 1) acc
      else if c = ')' then splitByCommasAux rest (cur ++ [c]) (depth - 1) acc
      else if c = ',' ∧ depth = 0 then
        splitByCommasAux rest [] depth (String.mk (trimChars cur) :: acc)
      else splitByCommasAux rest (cur ++ [c]) depth acc

def splitByCommas (s : String) : List String :=
  splitByCommasAux s.data [] 0 []

/-- Python `str.isdigit` restricted to ASCII digits. -/
def pyIsDigit (s : String) : Bool := !s.data.isEmpty && s.data.all Char.isDigit

def digitsToNat (l : List Char) : Nat :=
  l.foldl (fun a c => a * 10 + (c.toNat - 48)) 0

/-- Python `int(...)` on a string the parser has already checked to be an
optional minus sign followed by digits. -/
def pyIntOfString (s : String) : ℤ :=
  if listIsPrefix ['-'] s.data then -(digitsToNat (s.data.drop 1) : ℤ)
  else (digitsToNat s.data : ℤ)

def parseExpChars (t : List Char) : Option ℤ :=
  let p := match t with
    | '-' :: r => (true, r)
    | '+' :: r => (false, r)
    | r => (false, r)
  if p.2.isEmpty || !(p.2.all Char.isDigit) then none
  else some (if p.1 then -(digitsToNat p.2 : ℤ) else (digitsToNat p.2 : ℤ))

/-- Assemble a decimal from sign, mantissa digits, fractional length and
decimal exponent. -/
def decOfParts (sgn : Bool) (mantDigits : List Char) (fracLen : ℕ) (e : ℤ) : Dec :=
  let m : ℤ := (digitsToNat mantDigits : ℤ)
  let ms : ℤ := if sgn then -m else m
  if 0 ≤ e then ⟨ms * 10 ^ e.toNat, fracLen⟩
  else ⟨ms, fracLen + (-e).toNat⟩

/-- Python `float(...)` on finite decimal/exponent literals, as an exact
decimal.  Non-finite literals (`inf`, `nan`) and underscore separators are
not recognised and fall through to the caller's string fallback; no
statement considered in this development contains such a token. -/
def pyFloatOfString (s : String) : Option Dec :=
  let cs0 := s.data
  let sp := match cs0 with
    | '-' :: t => (true, t)
    | '+' :: t => (false, t)
    | t => (false, t)
  let sgn := sp.1
  let cs := sp.2
  let ip := cs.takeWhile Char.isDigit
  let cs1 := cs.dropWhile Char.isDigit
  let fpp := match cs1 with
    | '.' :: t => (t.takeWhile Char.isDigit, t.dropWhile Char.isDigit)
    | t => (([] : List Char), t)
  let fp := fpp.1
  let cs2 := fpp.2
  if ip.isEmpty && fp.isEmpty then none
  else
    match cs2 with
    | [] => some (decOfParts sgn (ip ++ fp) fp.length 0)
    | 'e' :: t => (parseExpChars t).map (decOfParts sgn (ip ++ fp) fp.length)
    | 'E' :: t => (parseExpChars t).map (decOfParts sgn (ip ++ fp) fp.length)
    | _ => none

/-- Python `v[1:-1]` (quote stripping). -/
def stripEnds (v : String) : String := String.mk ((v.data.drop 1).dropLast)

/-- `QueryParser._parse_value` (parser.py lines 235-256), with its literal
priority order: NULL, TRUE/FALSE, quoted string, integer, float attempt,
raw-string fallback. -/
def pyParseValue (s : String) : Value :=
  let v := pyStrip s
  if pyUpper v = "NULL" then Value.null
  else if pyUpper v = "TRUE" then Value.bool true
  else if pyUpper v = "FALSE" then Value.bool false
  else if listIsPrefix ['\''] v.data && listIsPrefix ['\''] v.data.reverse then
    Value.str (stripEnds v)
  else if listIsPrefix ['"'] v.data && listIsPrefix ['"'] v.data.reverse then
    Value.str (stripEnds v)
  else if pyIsDigit v || (listIsPrefix ['-'] v.data && pyIsDigit (String.mk (v.data.drop 1))) then
    Value.int (pyIntOfString v)
  else
    match pyFloatOfString v with
    | some d => Value.float d
    | none => Value.str v

instance exceptDecEq {ε α : Type} [DecidableEq ε] [DecidableEq α] : DecidableEq (Except ε α) :=
  fun a b =>
    match a, b with
    | Except.ok x, Except.ok y =>
        if h : x = y then isTrue (congrArg Except.ok h)
        else isFalse (fun hh => h (Except.ok.inj hh))
    | Except.ok _, Except.error _ => isFalse (fun hh => Except.noConfusion hh)
    | Except.error _, Except.ok _ => isFalse (fun hh => Except.noConfusion hh)
    | Except.error x, Except.error y =>
        if h : x = y then isTrue (congrArg Except.error h)
        else isFalse (fun hh => h (Except.error.inj hh))

/-- One parsed WHERE condition. -/
structure Condition where
  column : String
  operator : String
  value : Value
deriving DecidableEq, Repr

/-- Python `pat in s` (substring containment). -/
def isSubstr (pat s : String) : Bool := listIsInfix pat.data s.data

/-- Python `s.split(c, 1)` at the first occurrence of character `c`
(the caller has already checked that `c` occurs). -/
def splitOnceChar (c : Char) (s : String) : String × String :=
  let cs := s.data
  (String.mk (cs.takeWhile (fun x => decide (x ≠ c))),
   String.mk ((cs.dropWhile (fun x => decide (x ≠ c))).drop 1))

/-- Python `s.split(pat, 1)` at the first occurrence of a substring. -/
def splitFirstInfix (pat : List Char) : List Char → Option (List Char × List Char)
  | [] => if pat.isEmpty then some ([], []) else none
  | c :: rest =>
    if listIsPrefix pat (c :: rest) then some ([], (c :: rest).drop pat.length)
    else
      match splitFirstInfix pat rest with
      | some lr => some (c :: lr.1, lr.2)
      | none => none

/-- `QueryParser._parse_where_clause` (parser.py lines 215-233).  NOTE:
the `=` containment test is performed first, so any term containing `!=`
(which also contains `=`) is split at the first `=`; the `!=` branch is
unreachable.  A term containing neither is silently skipped. -/
def parseWhereClause (whereStr : String) : List Condition :=
  (splitByCommas whereStr).foldl
    (fun conds cond =>
      if isSubstr "=" cond then
        let lr := splitOnceChar '=' cond
        conds ++ [⟨pyStrip lr.1, "=", pyParseValue (pyStrip lr.2)⟩]
      else if isSubstr "!=" cond then
        match splitFirstInfix ['!', '='] cond.data with
        | some lr =>
            conds ++ [⟨pyStrip (String.mk lr.1), "!=", pyParseValue (pyStrip (String.mk lr.2))⟩]
        | none => conds
      else conds)
    []

/-- `QueryParser._parse_values` (parser.py lines 258-263). -/
def parseValues (valuesStr : String) : List Value :=
  (splitByCommas valuesStr).map (fun v => pyParseValue (pyStrip v))

/-- A column definition captured by `_parse_create_table`. -/
structure ColDef where
  name : String
  type : String
  constraints : List String
deriving DecidableEq, Repr

/-- Python `str.split()` with no argument: split on whitespace runs,
dropping empty pieces. -/
def pySplitWsChars : List Char → List Char → List String
  | [], cur => if cur.isEmpty then [] else [String.mk cur.reverse]
  | c :: rest, cur =>
      if c.isWhitespace then
        if cur.isEmpty then pySplitWsChars rest []
        else String.mk cur.reverse :: pySplitWsChars rest []
      else pySplitWsChars rest (c :: cur)

def pySplitWs (s : String) : List String := pySplitWsChars s.data []

/-- Column-definition loop of `QueryParser._parse_create_table`
(parser.py lines 75-93): each comma-separated piece is whitespace-split
into name, type and free-form uppercase constraint tokens — so a
constraint token never contains a space.  A piece with fewer than two
words raises (`IndexError`). -/
def parseCreateColumns (columnsStr : String) : Except String (List ColDef) :=
  (splitByCommas columnsStr).foldlM
    (fun acc colDef =>
      let cd := pyStrip colDef
      if cd.data.isEmpty then pure acc
      else
        match pySplitWs cd with
        | n :: t :: rest => pure (acc ++ [ColDef.mk n (pyUpper t) (rest.map pyUpper)])
        | _ => Except.error "IndexError: column definition needs a name and a type")
    []

/-! ## Executor (`src/database/executor.py`) -/

/-- In-memory table entry of `QueryExecutor.tables`:
`{'schema': [...], 'data': {'rows': {...}}, 'indexes': {...}, 'next_row_id': n}`. -/
structure Table where
  schema : List Column
  rows : List (Nat × Row)
  indexes : List (String × Index)
  next_row_id : Nat
deriving DecidableEq, Repr

/-- One record of the persisted schema descriptor
(`{'name': ..., 'type': ..., 'constraints': [...]}`). -/
structure SchemaCol where
  name : String
  type : String
  constraints : List String
deriving DecidableEq, Repr

/-- What `Storage` holds for one table: the schema descriptor file and the
row snapshot (an empty schema stands for a missing schema file, which
`_load_table` treats the same way). -/
structure DiskTable where
  schema : List SchemaCol
  rows : List (Nat × Row)
deriving DecidableEq, Repr

structure DB where
  tables : List (String × Table)
  disk : List (String × DiskTable)
deriving DecidableEq, Repr

/-- The distinct `raise` sites of the executor, by kind. -/
inductive ExecErr where
  | tableExists (t : String)
  | noSuchTable (t : String)
  | arityMismatch (ncols nvals : Nat)
  | noSuchColumn (c : String)
  | typeMismatch (c : String)
  | nullPrimaryKey (c : String)
  | duplicateValue (c : String) (v : Value)
  | uniqueViolation (c : String)
  | keyError
  | badDataType (s : String)
deriving DecidableEq, Repr

/-- Column construction in `_execute_create_table` (executor.py lines
99-104).  The membership tests are Python *list membership*: each whole
constraint token is compared against the two-word string
`"PRIMARY KEY"` or against `"UNIQUE"`. -/
def mkColumn (cd : ColDef) : Except ExecErr Column :=
  match DataType.ofString cd.type with
  | none => Except.error (ExecErr.badDataType cd.type)
  | some dt =>
    Except.ok
      { name := cd.name
        dtype := dt
        is_primary := cd.constraints.any (fun c => strEq c "PRIMARY KEY")
        is_unique := cd.constraints.any (fun c => strEq c "UNIQUE")
          || cd.constraints.any (fun c => strEq c "PRIMARY KEY") }

/-- Index creation for primary/unique columns (executor.py lines
113-117 and 44-46). -/
def mkIndexes (columns : List Column) : List (String × Index) :=
  columns.foldl
    (fun idxs col =>
      if col.is_primary || col.is_unique then
        aset strEq col.name (Index.mk col.name (col.is_primary || col.is_unique) []) idxs
      else idxs)
    []

/-- The per-column body of `QueryExecutor._check_constraints`
(executor.py lines 434-454), first failure wins. -/
def checkConstraintsCols (indexes : List (String × Index)) (row : Row)
    (excludeRowId : Option Nat) : List Column → Except ExecErr Unit
  | [] => Except.ok ()
  | col :: rest =>
    let value := rowGet row col.name
    if col.is_primary ∧ value = Value.null then
      Except.error (ExecErr.nullPrimaryKey col.name)
    else if (col.is_primary ∨ col.is_unique) ∧ value ≠ Value.null then
      match alookup strEq col.name indexes with
      | none => Except.error ExecErr.keyError
      | some index =>
        if index.has_value value then
          let existing := index.search value
          let remaining := match excludeRowId with
            | some e => existing.filter (fun r => decide (r ≠ e))
            | none => existing
          if remaining.isEmpty then checkConstraintsCols indexes row excludeRowId rest
          else Except.error (ExecErr.duplicateValue col.name value)
        else checkConstraintsCols indexes row excludeRowId rest
    else checkConstraintsCols indexes row excludeRowId rest

/-- `QueryExecutor._check_constraints` (executor.py lines 427-454). -/
def checkConstraints (t : Table) (row : Row) (excludeRowId : Option Nat) :
    Except ExecErr Unit :=
  checkConstraintsCols t.indexes row excludeRowId t.schema

/-- `Storage.save_table_schema`: writes the schema file, leaving the data
file as it is. -/
def diskSaveSchema (disk : List (String × DiskTable)) (name : String)
    (schema : List SchemaCol) : List (String × DiskTable) :=
  match alookup strEq name disk with
  | some dt => aset strEq name ⟨schema, dt.rows⟩ disk
  | none => aset strEq name ⟨schema, []⟩ disk

/-- `Storage.save_table_data`: writes the full row snapshot. -/
def diskSaveData (disk : List (String × DiskTable)) (name : String)
    (rows : List (Nat × Row)) : List (String × DiskTable) :=
  match alookup strEq name disk with
  | some dt => aset strEq name ⟨dt.schema, rows⟩ disk
  | none => aset strEq name ⟨[], rows⟩ disk

/-- Column and schema-descriptor construction loop of
`_execute_create_table` (executor.py lines 95-111). -/
def buildColumns : List ColDef → Except ExecErr (List Column × List SchemaCol)
  | [] => Except.ok ([], [])
  | cd :: rest =>
    match mkColumn cd with
    | Except.error e => Except.error e
    | Except.ok col =>
      match buildColumns rest with
      | Except.error e => Except.error e
      | Except.ok p =>
        Except.ok (col :: p.1, SchemaCol.mk col.name col.dtype.value cd.constraints :: p.2)

/-- `QueryExecutor._execute_create_table` (executor.py lines 88-130). -/
def execCreateTable (db : DB) (name : String) (colDefs : List ColDef) :
    DB × Except ExecErr Unit :=
  if (alookup strEq name db.tables).isSome then
    (db, Except.error (ExecErr.tableExists name))
  else
    match buildColumns colDefs with
    | Except.error e => (db, Except.error e)
    | Except.ok p =>
      let columns := p.1
      let indexes := mkIndexes columns
      let tables := aset strEq name (Table.mk columns [] indexes 1) db.tables
      let disk := diskSaveData (diskSaveSchema db.disk name p.2) name []
      (DB.mk tables disk, Except.ok ())

/-- Row assembly loop of `_execute_insert` (executor.py lines 156-167):
resolve each supplied column, validate the value's type, set the field. -/
def buildRowData (columns : List Column) : List (String × Value) → Row → Except ExecErr Row
  | [], row => Except.ok row
  | (cn, v) :: rest, row =>
    match columns.find? (fun col => strEq col.name cn) with
    | none => Except.error (ExecErr.noSuchColumn cn)
    | some colDef =>
      if colDef.validate_value v then buildRowData columns rest (rowSet row cn v)
      else Except.error (ExecErr.typeMismatch cn)

/-- Fill unsupplied columns with NULL (executor.py lines 169-172). -/
def fillMissing (columns : List Column) (row : Row) : Row :=
  columns.foldl
    (fun r col => if rowHas r col.name then r else rowSet r col.name Value.null) row

/-- Index-update loop of `_execute_insert` (executor.py lines 182-189);
on a duplicate it stops, leaving the earlier indexes already updated and
the failing one untouched. -/
def insertIndexLoop (rowData : Row) (rid : Nat) :
    List (String × Index) → List (String × Index) × Option String
  | [] => ([], none)
  | (cn, idx) :: rest =>
    let p := idx.insert (rowGet rowData cn) rid
    if p.2 then
      let q := insertIndexLoop rowData rid rest
      ((cn, p.1) :: q.1, q.2)
    else ((cn, p.1) :: rest, some cn)

/-- The body of `_execute_insert` after the effective column order is
resolved (executor.py lines 152-194). -/
def execInsertRow (db : DB) (name : String) (t : Table)
    (colNames : List String) (values : List Value) : DB × Except ExecErr Nat :=
  if colNames.length ≠ values.length then
    (db, Except.error (ExecErr.arityMismatch colNames.length values.length))
  else
    match buildRowData t.schema (colNames.zip values) [] with
    | Except.error e => (db, Except.error e)
    | Except.ok row0 =>
      let rowData := fillMissing t.schema row0
      match checkConstraints t rowData none with
      | Except.error e => (db, Except.error e)
      | Except.ok _ =>
        let rid := t.next_row_id
        let rows1 := aset natEq rid rowData t.rows
        let p := insertIndexLoop rowData rid t.indexes
        match p.2 with
        | some cn =>
          -- rollback (executor.py lines 186-189): the row and the
          -- counter bump are undone, the partial index updates are kept
          let t2 := Table.mk t.schema (aerase natEq rid rows1) p.1 (t.next_row_id + 1 - 1)
          (DB.mk (aset strEq name t2 db.tables) db.disk,
           Except.error (ExecErr.uniqueViolation cn))
        | none =>
          let t2 := Table.mk t.schema rows1 p.1 (t.next_row_id + 1)
          (DB.mk (aset strEq name t2 db.tables) (diskSaveData db.disk name rows1),
           Except.ok rid)

/-- `QueryExecutor._execute_insert` (executor.py lines 132-194); an
omitted (or falsy empty) column list means the schema's declared order. -/
def execInsert (db : DB) (name : String) (cols : Option (List String))
    (values : List Value) : DB × Except ExecErr Nat :=
  match alookup strEq name db.tables with
  | none => (db, Except.error (ExecErr.noSuchTable name))
  | some t =>
    let colNames := match cols with
      | some [] => t.schema.map Column.name
      | some cs => cs
      | none => t.schema.map Column.name
    execInsertRow db name t colNames values

/-- One condition test of the full-scan loop (executor.py lines 357-368);
an operator other than `=`/`!=` imposes no constraint. -/
def condMatches (row : Row) (c : Condition) : Bool :=
  let colValue := rowGet row c.column
  if c.operator = "=" then pyEq colValue c.value
  else if c.operator = "!=" then !(pyEq colValue c.value)
  else true

/-- The full-scan fallback of `_apply_where_clause`
(executor.py lines 356-373). -/
def fullScan (rows : List (Nat × Row)) (conds : List Condition) : List (Nat × Row) :=
  rows.filter (fun p => conds.all (condMatches p.2))

/-- First condition that is an equality on an indexed column
(executor.py lines 345-346). -/
def findIndexedEq (indexes : List (String × Index)) : List Condition → Option (Condition × Index)
  | [] => none
  | c :: rest =>
    if c.operator = "=" then
      match alookup strEq c.column indexes with
      | some idx => some (c, idx)
      | none => findIndexedEq indexes rest
    else findIndexedEq indexes rest

/-- `QueryExecutor._apply_where_clause` (executor.py lines 333-373): no
conditions (or an empty list) keeps every row; one equality condition on
an indexed column short-circuits to an index lookup, ignoring the other
conditions; otherwise a full scan applies every condition. -/
def applyWhereClause (indexes : List (String × Index)) (rows : List (Nat × Row))
    (conditions : Option (List Condition)) : List (Nat × Row) :=
  match conditions with
  | none => rows
  | some [] => rows
  | some conds =>
    match findIndexedEq indexes conds with
    | some ci =>
      (ci.2.search ci.1.value).filterMap
        (fun rid => (alookup natEq rid rows).map (fun row => (rid, row)))
    | none => fullScan rows conds

/-- Projection loop of `_execute_select` (executor.py lines 226-234). -/
def projectRow (selectedColumns : List String) (row : Row) : Except ExecErr Row :=
  selectedColumns.foldlM
    (fun acc cn =>
      if rowHas row cn then Except.ok (rowSet acc cn (rowGet row cn))
      else Except.error (ExecErr.noSuchColumn cn))
    []

structure JoinInfo where
  table : String
  left_column : String
  right_column : String
deriving DecidableEq, Repr

/-- `{f"{table}.{k}": v for k, v in row.items()}`. -/
def prefixKeys (tn : String) (row : Row) : Row :=
  row.map (fun p => (tn ++ "." ++ p.1, p.2))

/-- Row merge of `_execute_join` (executor.py lines 406-407 and 421-422):
left columns prefixed, then the right columns merged over them. -/
def mergeRows (leftName rightName : String) (lrow rrow : Row) : Row :=
  (prefixKeys rightName rrow).foldl (fun acc p => aset strEq p.1 p.2 acc)
    (prefixKeys leftName lrow)

/-- The index path of `_execute_join` (executor.py lines 392-408): for
each left row with a non-null join-key value, look up the matching right
row-ids and merge each found, non-empty right row (the dict-truthiness
test of line 404). -/
def indexLoopJoin (leftName rightName lcol : String) (index : Index)
    (leftRows rightRows : List (Nat × Row)) : List Row :=
  leftRows.foldl
    (fun res lp =>
      let leftValue := rowGet lp.2 lcol
      if leftValue = Value.null then res
      else
        res ++ (index.search leftValue).filterMap
          (fun rrid =>
            match alookup natEq rrid rightRows with
            | some rrow =>
              if rrow.isEmpty then none
              else some (mergeRows leftName rightName lp.2 rrow)
            | none => none))
    []

/-- The nested-loop fallback of `_execute_join` (executor.py lines
410-423): for each left row with a non-null join-key value, merge every
right row whose join-column value is Python-equal. -/
def nestedLoopJoin (leftName rightName lcol rcol : String)
    (leftRows rightRows : List (Nat × Row)) : List Row :=
  leftRows.foldl
    (fun res lp =>
      let leftValue := rowGet lp.2 lcol
      if leftValue = Value.null then res
      else
        res ++ rightRows.filterMap
          (fun rp =>
            if pyEq (rowGet rp.2 rcol) leftValue then
              some (mergeRows leftName rightName lp.2 rp.2)
            else none))
    []

/-- `QueryExecutor._execute_join` (executor.py lines 375-425): a left row
with a NULL join-key value is skipped in both paths; the index path is
taken exactly when the right join column has an index. -/
def executeJoin (db : DB) (leftName : String) (leftRows : List (Nat × Row))
    (ji : JoinInfo) : Except ExecErr (List Row) :=
  match alookup strEq ji.table db.tables with
  | none => Except.error (ExecErr.noSuchTable ji.table)
  | some rightTable =>
    match alookup strEq ji.right_column rightTable.indexes with
    | some index =>
      Except.ok (indexLoopJoin leftName ji.table ji.left_column index
        leftRows rightTable.rows)
    | none =>
      Except.ok (nestedLoopJoin leftName ji.table ji.left_column ji.right_column
        leftRows rightTable.rows)

/-- `QueryExecutor._execute_select` (executor.py lines 196-240); when a
join is present the join result is returned and the projection ignored. -/
def execSelect (db : DB) (name : String) (columns : List String)
    (whereC : Option (List Condition)) (join : Option JoinInfo) :
    Except ExecErr (List String × List Row) :=
  match alookup strEq name db.tables with
  | none => Except.error (ExecErr.noSuchTable name)
  | some t =>
    let selectedColumns := if columns = ["*"] then t.schema.map Column.name else columns
    let filtered := applyWhereClause t.indexes t.rows whereC
    match join with
    | some ji =>
      match executeJoin db name filtered ji with
      | Except.error e => Except.error e
      | Except.ok joined => Except.ok (selectedColumns, joined)
    | none =>
      match filtered.mapM (fun p => projectRow selectedColumns p.2) with
      | Except.error e => Except.error e
      | Except.ok rs => Except.ok (selectedColumns, rs)

/-- SET-assignment loop of `_execute_update` (executor.py lines 263-274),
building the tentative updated row. -/
def applySetClause (schema : List Column) : Row → List (String × Value) → Except ExecErr Row
  | row, [] => Except.ok row
  | row, (cn, v) :: rest =>
    match schema.find? (fun col => strEq col.name cn) with
    | none => Except.error (ExecErr.noSuchColumn cn)
    | some colDef =>
      if colDef.validate_value v then applySetClause schema (rowSet row cn v) rest
      else Except.error (ExecErr.typeMismatch cn)

/-- Index-update loop of `_execute_update` (executor.py lines 279-286):
only changed values (Python `!=`) touch the index; a duplicate stops the
statement, the delete half of the failing `Index.update` and all earlier
index updates already applied. -/
def updateIndexLoop (oldRow newRow : Row) (rid : Nat) :
    List (String × Index) → List (String × Index) × Option String
  | [] => ([], none)
  | (cn, idx) :: rest =>
    let oldValue := rowGet oldRow cn
    let newValue := rowGet newRow cn
    if pyEq oldValue newValue then
      let q := updateIndexLoop oldRow newRow rid rest
      ((cn, idx) :: q.1, q.2)
    else
      let p := idx.update oldValue newValue rid
      if p.2 then
        let q := updateIndexLoop oldRow newRow rid rest
        ((cn, p.1) :: q.1, q.2)
      else ((cn, p.1) :: rest, some cn)

/-- One iteration of the `_execute_update` row loop
(executor.py lines 258-290). -/
def updateOneRow (t : Table) (setList : List (String × Value)) (rid : Nat) :
    Table × Except ExecErr Unit :=
  match alookup natEq rid t.rows with
  | none => (t, Except.error ExecErr.keyError)
  | some row =>
    match applySetClause t.schema row setList with
    | Except.error e => (t, Except.error e)
    | Except.ok updatedRow =>
      match checkConstraints t updatedRow (some rid) with
      | Except.error e => (t, Except.error e)
      | Except.ok _ =>
        let p := updateIndexLoop row updatedRow rid t.indexes
        match p.2 with
        | some cn =>
          (Table.mk t.schema t.rows p.1 t.next_row_id,
           Except.error (ExecErr.uniqueViolation cn))
        | none =>
          (Table.mk t.schema (aset natEq rid updatedRow t.rows) p.1 t.next_row_id,
           Except.ok ())

/-- The `_execute_update` row loop over the filtered row-ids; an error
aborts the statement, keeping the rows already committed. -/
def updateLoop (setList : List (String × Value)) :
    Table → List Nat → Nat → Table × Nat × Option ExecErr
  | t, [], cnt => (t, cnt, none)
  | t, rid :: rest, cnt =>
    match updateOneRow t setList rid with
    | (t2, Except.error e) => (t2, cnt, some e)
    | (t2, Except.ok _) => updateLoop setList t2 rest (cnt + 1)

/-- `QueryExecutor._execute_update` (executor.py lines 242-296); the
snapshot is persisted only when the loop finishes with a positive count. -/
def execUpdate (db : DB) (name : String) (setList : List (String × Value))
    (whereC : Option (List Condition)) : DB × Except ExecErr Nat :=
  match alookup strEq name db.tables with
  | none => (db, Except.error (ExecErr.noSuchTable name))
  | some t =>
    let filtered := applyWhereClause t.indexes t.rows whereC
    let r := updateLoop setList t (filtered.map Prod.fst) 0
    match r.2.2 with
    | some e => (DB.mk (aset strEq name r.1 db.tables) db.disk, Except.error e)
    | none =>
      let disk2 := if 0 < r.2.1 then diskSaveData db.disk name r.1.rows else db.disk
      (DB.mk (aset strEq name r.1 db.tables) disk2, Except.ok r.2.1)

/-- Per-row index removal of `_execute_delete` (executor.py lines 318-321). -/
def deleteIndexes (row : Row) (rid : Nat) :
    List (String × Index) → List (String × Index)
  | [] => []
  | (cn, idx) :: rest => (cn, idx.delete (rowGet row cn) rid) :: deleteIndexes row rid rest

/-- The `_execute_delete` row loop (executor.py lines 314-325). -/
def deleteLoop : Table → List Nat → Nat → Table × Nat × Option ExecErr
  | t, [], cnt => (t, cnt, none)
  | t, rid :: rest, cnt =>
    match alookup natEq rid t.rows with
    | none => (t, cnt, some ExecErr.keyError)
    | some row =>
      let t2 := Table.mk t.schema (aerase natEq rid t.rows)
        (deleteIndexes row rid t.indexes) t.next_row_id
      deleteLoop t2 rest (cnt + 1)

/-- `QueryExecutor._execute_delete` (executor.py lines 298-331). -/
def execDelete (db : DB) (name : String) (whereC : Option (List Condition)) :
    DB × Except ExecErr Nat :=
  match alookup strEq name db.tables with
  | none => (db, Except.error (ExecErr.noSuchTable name))
  | some t =>
    let filtered := applyWhereClause t.indexes t.rows whereC
    let r := deleteLoop t (filtered.map Prod.fst) 0
    match r.2.2 with
    | some e => (DB.mk (aset strEq name r.1 db.tables) db.disk, Except.error e)
    | none =>
      let disk2 := if 0 < r.2.1 then diskSaveData db.disk name r.1.rows else db.disk
      (DB.mk (aset strEq name r.1 db.tables) disk2, Except.ok r.2.1)

/-- Column reconstruction in `_load_table` (executor.py lines 36-41):
the same list-membership constraint tests as at creation. -/
def mkColumnFromSchema (sc : SchemaCol) : Except ExecErr Column :=
  match DataType.ofString sc.type with
  | none => Except.error (ExecErr.badDataType sc.type)
  | some dt =>
    Except.ok
      { name := sc.name
        dtype := dt
        is_primary := sc.constraints.any (fun c => strEq c "PRIMARY KEY")
        is_unique := sc.constraints.any (fun c => strEq c "UNIQUE")
          || sc.constraints.any (fun c => strEq c "PRIMARY KEY") }

/-- Index replay for one loaded row (executor.py lines 59-62); the insert
result flag is discarded. -/
def loadRowIndexes (columns : List Column) (row : Row) (rid : Nat)
    (indexes : List (String × Index)) : List (String × Index) :=
  columns.foldl
    (fun idxs col =>
      match alookup strEq col.name idxs with
      | some idx => aset strEq col.name (idx.insert (rowGet row col.name) rid).1 idxs
      | none => idxs)
    indexes

/-- `QueryExecutor._load_table` (executor.py lines 25-69): rebuild columns
and indexes from the schema descriptor, replay every persisted row into
the indexes, and recompute `next_row_id` as one more than the largest
row-id seen (starting from 1). -/
def loadTable (dt : DiskTable) : Except ExecErr (Option Table) :=
  if dt.schema.isEmpty then Except.ok none
  else
    match dt.schema.mapM mkColumnFromSchema with
    | Except.error e => Except.error e
    | Except.ok columns =>
      let r := dt.rows.foldl
        (fun acc p => (max acc.1 (p.1 + 1), loadRowIndexes columns p.2 p.1 acc.2))
        (1, mkIndexes columns)
      Except.ok (some (Table.mk columns dt.rows r.2 r.1))

/-- `QueryExecutor._load_existing_tables` (executor.py lines 19-23): a
fresh executor pointed at the same storage. -/
def loadDB (disk : List (String × DiskTable)) : Except ExecErr DB :=
  match disk.foldlM
      (fun acc p =>
        match loadTable p.2 with
        | Except.error e => Except.error e
        | Except.ok none => Except.ok acc
        | Except.ok (some t) => Except.ok (aset strEq p.1 t acc))
      [] with
  | Except.error e => Except.error e
  | Except.ok tables => Except.ok (DB.mk tables disk)

/-- A parsed statement as the executor receives it
(`QueryExecutor.execute`, executor.py lines 71-86). -/
inductive Stmt where
  | create (name : String) (cols : List ColDef)
  | insert (table : String) (columns : Option (List String)) (values : List Value)
  | select (table : String) (columns : List String)
      (whereC : Option (List Condition)) (join : Option JoinInfo)
  | update (table : String) (setList : List (String × Value))
      (whereC : Option (List Condition))
  | delete (table : String) (whereC : Option (List Condition))
deriving DecidableEq, Repr

inductive ExecResult where
  | ok
  | rowId (rid : Nat)
  | rowsOut (columns : List String) (rows : List Row)
  | updatedCount (n : Nat)
  | deletedCount (n : Nat)
deriving DecidableEq, Repr

/-- `QueryExecutor.execute`: dispatch on the statement kind.  The state is
returned even on error, because the executor mutates its table registry in
place before some failures. -/
def execStmt (db : DB) : Stmt → DB × Except ExecErr ExecResult
  | Stmt.create n cds =>
    let r := execCreateTable db n cds
    (r.1, r.2.map (fun _ => ExecResult.ok))
  | Stmt.insert n cs vs =>
    let r := execInsert db n cs vs
    (r.1, r.2.map ExecResult.rowId)
  | Stmt.select n cols w j =>
    match execSelect db n cols w j with
    | Except.error e => (db, Except.error e)
    | Except.ok p => (db, Except.ok (ExecResult.rowsOut p.1 p.2))
  | Stmt.update n s w =>
    let r := execUpdate db n s w
    (r.1, r.2.map ExecResult.updatedCount)
  | Stmt.delete n w =>
    let r := execDelete db n w
    (r.1, r.2.map ExecResult.deletedCount)

def dbInit : DB := DB.mk [] []

/-- Database states reachable from a fresh engine through `execute` calls.
Failed statements are included: the executor mutates its registry in
place, so a statement that raises can still have changed the state. -/
inductive Reachable : DB → Prop where
  | init : Reachable dbInit
  | step (db : DB) (s : Stmt) : Reachable db → Reachable (execStmt db s).1

/-! ## Invariants

All predicates below quantify only over the lists they inspect, so they
are decidable and can be checked on concrete states. -/

/-- Keys of an association list are pairwise distinct under `eq`
(the dict-representation invariant). -/
def keysND (eq : κ → κ → Bool) (l : List (κ × α)) : Prop :=
  List.Pairwise (fun p q => eq p.1 q.1 = false) l

/-- Structural well-formedness of an index: pairwise-distinct value
classes, no NULL key, duplicate-free row-id sets, and — on a unique
index — at most one row-id per value. -/
def IndexWF (idx : Index) : Prop :=
  keysND pyEq idx.entries ∧
  (∀ e ∈ idx.entries, e.1 ≠ Value.null ∧ e.2.Nodup) ∧
  (idx.is_unique = true → ∀ e ∈ idx.entries, e.2.length ≤ 1)

/-- The index for column `cn` reflects exactly the non-null values of the
rows (the spec's "index content is an exact reflection of the column's
current values"). -/
def IndexSynced (idx : Index) (cn : String) (rows : List (Nat × Row)) : Prop :=
  (∀ e ∈ idx.entries, ∀ rid ∈ e.2,
    ∃ p ∈ rows, p.1 = rid ∧ pyEq (rowGet p.2 cn) e.1 = true) ∧
  (∀ p ∈ rows, rowGet p.2 cn ≠ Value.null → p.1 ∈ idx.search (rowGet p.2 cn))

/-- Well-formedness of one in-memory table. -/
def TableWF (t : Table) : Prop :=
  keysND natEq t.rows ∧
  (∀ p ∈ t.rows, p.1 < t.next_row_id) ∧
  1 ≤ t.next_row_id ∧
  keysND strEq t.indexes ∧
  (∀ p ∈ t.indexes, p.2.is_unique = true ∧ IndexWF p.2 ∧ IndexSynced p.2 p.1 t.rows) ∧
  (∀ p ∈ t.indexes, ∃ col ∈ t.schema,
    col.name = p.1 ∧ (col.is_primary = true ∨ col.is_unique = true)) ∧
  (∀ col ∈ t.schema, (col.is_primary = true ∨ col.is_unique = true) →
    (alookup strEq col.name t.indexes).isSome = true) ∧
  (∀ col ∈ t.schema, col.is_primary = true →
    ∀ p ∈ t.rows, rowGet p.2 col.name ≠ Value.null)

/-- Well-formedness of the whole registry. -/
def DBInv (db : DB) : Prop :=
  keysND strEq db.tables ∧ ∀ p ∈ db.tables, TableWF p.2

/-- Search-based reformulation of `IndexSynced`, the form the proofs
use: membership in a value's search result is membership of a row holding
that value. -/
def SyncedS (idx : Index) (cn : String) (rows : List (Nat × Row)) : Prop :=
  ∀ v, v ≠ Value.null → ∀ rid,
    (rid ∈ idx.search v ↔ ∃ p ∈ rows, p.1 = rid ∧ pyEq (rowGet p.2 cn) v = true)

/-- An equivalence packaged as a boolean relation; holds for `strEq`,
`natEq` and `pyEq`. -/
structure IsEqv (eq : κ → κ → Bool) : Prop where
  refl : ∀ a, eq a a = true
  symm : ∀ a b, eq a b = eq b a
  trans : ∀ a b c, eq a b = true → eq b c = true → eq a c = true

instance keysNDDecidable {κ α : Type} (eq : κ → κ → Bool) (l : List (κ × α)) :
    Decidable (keysND eq l) :=
  inferInstanceAs (Decidable (List.Pairwise _ l))

instance indexWFDecidable (idx : Index) : Decidable (IndexWF idx) :=
  inferInstanceAs (Decidable (_ ∧ _ ∧ _))

instance indexSyncedDecidable (idx : Index) (cn : String) (rows : List (Nat × Row)) :
    Decidable (IndexSynced idx cn rows) :=
  inferInstanceAs (Decidable (_ ∧ _))

instance tableWFDecidable (t : Table) : Decidable (TableWF t) :=
  inferInstanceAs (Decidable (_ ∧ _ ∧ _ ∧ _ ∧ _ ∧ _ ∧ _ ∧ _))

instance dbInvDecidable (db : DB) : Decidable (DBInv db) :=
  inferInstanceAs (Decidable (_ ∧ _))

/-! ## Concrete scenario states used by the claims -/

/-- `CREATE TABLE t (a INT, e TEXT UNIQUE)` then
`INSERT INTO t (a) VALUES (1)` — the stored row has NULL in the indexed
unique column `e`. -/
def nullRowDb : DB :=
  (execStmt
    (execStmt dbInit
      (Stmt.create "t" [ColDef.mk "a" "INT" [], ColDef.mk "e" "TEXT" ["UNIQUE"]])).1
    (Stmt.insert "t" (some ["a"]) [Value.int 1])).1

/-- `CREATE TABLE t (a INT)`. -/
def intTableDb : DB :=
  (execStmt dbInit (Stmt.create "t" [ColDef.mk "a" "INT" []])).1

/-- After `intTableDb`: insert 1, insert 2, then `DELETE ... WHERE a = 2`,
removing the row with the largest row-id. -/
def delMaxDb : DB :=
  (execStmt
    (execStmt
      (execStmt intTableDb (Stmt.insert "t" none [Value.int 1])).1
      (Stmt.insert "t" none [Value.int 2])).1
    (Stmt.delete "t" (some [Condition.mk "a" "=" (Value.int 2)]))).1

/-- Two one-column tables `l` and `r` joined on `k`; `r.k` is UNIQUE and
therefore indexed, with one matching row on each side. -/
def joinDb : DB :=
  (execStmt
    (execStmt
      (execStmt
        (execStmt dbInit (Stmt.create "l" [ColDef.mk "k" "INT" []])).1
        (Stmt.create "r" [ColDef.mk "k" "INT" ["UNIQUE"]])).1
      (Stmt.insert "l" none [Value.int 2])).1
    (Stmt.insert "r" none [Value.int 2])).1

/-- `CREATE TABLE users (id INT, email TEXT UNIQUE)` with two rows holding
distinct emails — the setting of the update-duplicate claim. -/
def twoRowDb : DB :=
  (execStmt
    (execStmt
      (execStmt dbInit
        (Stmt.create "users" [ColDef.mk "id" "INT" [], ColDef.mk "email" "TEXT" ["UNIQUE"]])).1
      (Stmt.insert "users" none [Value.int 1, Value.str "a@x.com"])).1
    (Stmt.insert "users" none [Value.int 2, Value.str "b@x.com"])).1

/-- A table with a unique column `u` and a primary-key column `p`
(declared through the executor-level constraint token `PRIMARY KEY`, the
form `_load_table` also accepts), holding one row `(u=1, p=1)`. -/
def c5db : DB :=
  (execStmt
    (execStmt dbInit
      (Stmt.create "t"
        [ColDef.mk "u" "INT" ["UNIQUE"], ColDef.mk "p" "INT" ["PRIMARY KEY"]])).1
    (Stmt.insert "t" none [Value.int 1, Value.int 1])).1

/-! ## Basic lemmas about the value model and the dict model -/

theorem pyEq_iff {a b : Value} : pyEq a b = true ↔ pyKey a = pyKey b := by
  simp [pyEq]

theorem pyEq_rfl (a : Value) : pyEq a a = true := by simp [pyEq]

theorem pyEq_symm (a b : Value) : pyEq a b = pyEq b a := by
  unfold pyEq
  exact decide_eq_decide.mpr ⟨fun h => h.symm, fun h => h.symm⟩

theorem pyEq_trans {a b c : Value} (h1 : pyEq a b = true) (h2 : pyEq b c = true) :
    pyEq a c = true :=
  pyEq_iff.mpr ((pyEq_iff.mp h1).trans (pyEq_iff.mp h2))

theorem pyEq_null_iff {a : Value} : pyEq a Value.null = true ↔ a = Value.null := by
  cases a <;> simp [pyEq, pyKey]

theorem strEq_iff {a b : String} : strEq a b = true ↔ a = b := by simp [strEq]

theorem natEq_iff {a b : Nat} : natEq a b = true ↔ a = b := by simp [natEq]

theorem isEqv_strEq : IsEqv strEq :=
  ⟨fun _ => strEq_iff.mpr rfl,
   fun _ _ => decide_eq_decide.mpr ⟨fun h => h.symm, fun h => h.symm⟩,
   fun _ _ _ h1 h2 => strEq_iff.mpr ((strEq_iff.mp h1).trans (strEq_iff.mp h2))⟩

theorem isEqv_natEq : IsEqv natEq :=
  ⟨fun _ => natEq_iff.mpr rfl,
   fun _ _ => decide_eq_decide.mpr ⟨fun h => h.symm, fun h => h.symm⟩,
   fun _ _ _ h1 h2 => natEq_iff.mpr ((natEq_iff.mp h1).trans (natEq_iff.mp h2))⟩

theorem isEqv_pyEq : IsEqv pyEq := ⟨pyEq_rfl, pyEq_symm, fun _ _ _ => pyEq_trans⟩

section AssocLemmas

variable {κ : Type} {α : Type} {eq : κ → κ → Bool}

theorem alookup_none_iff {k : κ} {l : List (κ × α)} :
    alookup eq k l = none ↔ ∀ p ∈ l, eq k p.1 = false := by
  induction l with
  | nil => simp [alookup]
  | cons p rest ih =>
    cases h : eq k p.1 with
    | true => simp [alookup, h]
    | false => simp [alookup, h, ih]

theorem alookup_mem {k : κ} {v : α} {l : List (κ × α)}
    (h : alookup eq k l = some v) : ∃ k0, (k0, v) ∈ l ∧ eq k k0 = true := by
  induction l with
  | nil => simp [alookup] at h
  | cons p rest ih =>
    cases he : eq k p.1 with
    | true =>
      simp [alookup, he] at h
      exact ⟨p.1, by simp [← h], he⟩
    | false =>
      simp [alookup, he] at h
      obtain ⟨k0, hk0, he0⟩ := ih h
      exact ⟨k0, List.mem_cons_of_mem _ hk0, he0⟩

theorem alookup_congr (hv : IsEqv eq) {a b : κ} (hab : eq a b = true)
    (l : List (κ × α)) : alookup eq a l = alookup eq b l := by
  induction l with
  | nil => rfl
  | cons p rest ih =>
    cases h : eq b p.1 with
    | true =>
      have ha : eq a p.1 = true := hv.trans a b p.1 hab h
      simp [alookup, h, ha]
    | false =>
      have ha : eq a p.1 = false := by
        cases hh : eq a p.1 with
        | false => rfl
        | true =>
          have : eq b p.1 = true := hv.trans b a p.1 (by rw [hv.symm]; exact hab) hh
          rw [this] at h; exact h
      simp [alookup, h, ha, ih]

theorem alookup_aset_self (hv : IsEqv eq) (k : κ) (v : α) (l : List (κ × α)) :
    alookup eq k (aset eq k v l) = some v := by
  induction l with
  | nil => simp [aset, alookup, hv.refl]
  | cons p rest ih =>
    cases h : eq k p.1 with
    | true => simp [aset, alookup, h]
    | false => simp [aset, alookup, h, ih]

theorem alookup_aset_ne {a k : κ} (hne : eq a k = false) (v : α)
    (hv : IsEqv eq) (l : List (κ × α)) :
    alookup eq a (aset eq k v l) = alookup eq a l := by
  induction l with
  | nil =>
    have : eq a k = true → False := by simp [hne]
    simp [aset, alookup, hne]
  | cons p rest ih =>
    cases h : eq k p.1 with
    | true =>
      have ha : eq a p.1 = false := by
        cases hh : eq a p.1 with
        | false => rfl
        | true =>
          have hak : eq a k = true :=
            hv.trans a p.1 k hh (by rw [hv.symm]; exact h)
          rw [hak] at hne; simp at hne
      simp [aset, alookup, h, ha]
    | false => simp [aset, alookup, h, ih]

theorem alookup_aerase_ne {a k : κ} (hne : eq a k = false)
    (hv : IsEqv eq) (l : List (κ × α)) :
    alookup eq a (aerase eq k l) = alookup eq a l := by
  induction l with
  | nil => simp [aerase]
  | cons p rest ih =>
    cases h : eq k p.1 with
    | true =>
      have ha : eq a p.1 = false := by
        cases hh : eq a p.1 with
        | false => rfl
        | true =>
          have hak : eq a k = true :=
            hv.trans a p.1 k hh (by rw [hv.symm]; exact h)
          rw [hak] at hne; simp at hne
      simp [aerase, alookup, h, ha]
    | false => simp [aerase, alookup, h, ih]

theorem keysND_cons {p : κ × α} {l : List (κ × α)} :
    keysND eq (p :: l) ↔ (∀ q ∈ l, eq p.1 q.1 = false) ∧ keysND eq l := by
  simp [keysND, List.pairwise_cons]

theorem alookup_aerase_self (hv : IsEqv eq) {k : κ} {l : List (κ × α)}
    (hnd : keysND eq l) : alookup eq k (aerase eq k l) = none := by
  induction l with
  | nil => simp [aerase, alookup]
  | cons p rest ih =>
    obtain ⟨hp, hrest⟩ := keysND_cons.mp hnd
    cases h : eq k p.1 with
    | true =>
      simp only [aerase, h, if_pos rfl]
      rw [alookup_none_iff]
      intro q hq
      cases hh : eq k q.1 with
      | false => rfl
      | true =>
        have h1 : eq p.1 k = true := by rw [hv.symm]; exact h
        have h2 : eq p.1 q.1 = true := hv.trans p.1 k q.1 h1 hh
        rw [hp q hq] at h2; simp at h2
    | false => simp [aerase, alookup, h, ih hrest]

theorem mem_aset {q : κ × α} {k : κ} {v : α} {l : List (κ × α)}
    (hq : q ∈ aset eq k v l) :
    q ∈ l ∨ (q.2 = v ∧ (q.1 = k ∨ ∃ w, (q.1, w) ∈ l)) := by
  induction l with
  | nil =>
    simp [aset] at hq
    right
    exact ⟨by simp [hq], Or.inl (by simp [hq])⟩
  | cons p rest ih =>
    cases h : eq k p.1 with
    | true =>
      simp only [aset, h, if_pos rfl] at hq
      rcases List.mem_cons.mp hq with hq1 | hq1
      · right
        refine ⟨by simp [hq1], Or.inr ⟨p.2, ?_⟩⟩
        simp [hq1]
      · exact Or.inl (List.mem_cons_of_mem _ hq1)
    | false =>
      simp only [aset, h] at hq
      rw [if_neg (by simp)] at hq
      rcases List.mem_cons.mp hq with hq1 | hq1
      · exact Or.inl (by simp [hq1])
      · rcases ih hq1 with h1 | ⟨h1, h2⟩
        · exact Or.inl (List.mem_cons_of_mem _ h1)
        · refine Or.inr ⟨h1, ?_⟩
          rcases h2 with h2 | ⟨w, hw⟩
          · exact Or.inl h2
          · exact Or.inr ⟨w, List.mem_cons_of_mem _ hw⟩

theorem mem_aset_of_mem {q : κ × α} {k : κ} {v : α} {l : List (κ × α)}
    (hne : eq k q.1 = false) (hq : q ∈ l) : q ∈ aset eq k v l := by
  induction l with
  | nil => simp at hq
  | cons p rest ih =>
    cases h : eq k p.1 with
    | true =>
      simp only [aset, h, if_pos rfl]
      rcases List.mem_cons.mp hq with hq1 | hq1
      · rw [hq1] at hne; rw [hne] at h; exact absurd h (by simp)
      · exact List.mem_cons_of_mem _ hq1
    | false =>
      simp only [aset, h]
      rw [if_neg (by simp)]
      rcases List.mem_cons.mp hq with hq1 | hq1
      · exact hq1 ▸ List.mem_cons_self _ _
      · exact List.mem_cons_of_mem _ (ih hq1)

theorem mem_aerase {q : κ × α} {k : κ} {l : List (κ × α)}
    (hq : q ∈ aerase eq k l) : q ∈ l := by
  induction l with
  | nil => simp [aerase] at hq
  | cons p rest ih =>
    cases h : eq k p.1 with
    | true =>
      simp only [aerase, h, if_pos rfl] at hq
      exact List.mem_cons_of_mem _ hq
    | false =>
      simp only [aerase, h] at hq
      rw [if_neg (by simp)] at hq
      rcases List.mem_cons.mp hq with hq1 | hq1
      · exact hq1 ▸ List.mem_cons_self _ _
      · exact List.mem_cons_of_mem _ (ih hq1)

theorem mem_aerase_of_mem {q : κ × α} {k : κ} {l : List (κ × α)}
    (hnd : keysND eq l) (hne : eq k q.1 = false) (hq : q ∈ l) :
    q ∈ aerase eq k l := by
  induction l with
  | nil => simp at hq
  | cons p rest ih =>
    obtain ⟨hp, hrest⟩ := keysND_cons.mp hnd
    cases h : eq k p.1 with
    | true =>
      simp only [aerase, h, if_pos rfl]
      rcases List.mem_cons.mp hq with hq1 | hq1
      · rw [hq1] at hne; rw [hne] at h; exact absurd h (by simp)
      · exact hq1
    | false =>
      simp only [aerase, h]
      rw [if_neg (by simp)]
      rcases List.mem_cons.mp hq with hq1 | hq1
      · exact hq1 ▸ List.mem_cons_self _ _
      · exact List.mem_cons_of_mem _ (ih hrest hq1)

theorem keysND_aset (hv : IsEqv eq) {k : κ} {v : α} {l : List (κ × α)}
    (hnd : keysND eq l) : keysND eq (aset eq k v l) := by
  induction l with
  | nil => simp [aset, keysND]
  | cons p rest ih =>
    obtain ⟨hp, hrest⟩ := keysND_cons.mp hnd
    cases h : eq k p.1 with
    | true =>
      simp only [aset, h, if_pos rfl]
      exact keysND_cons.mpr ⟨hp, hrest⟩
    | false =>
      simp only [aset, h]
      rw [if_neg (by simp)]
      refine keysND_cons.mpr ⟨?_, ih hrest⟩
      intro q hq
      rcases mem_aset hq with h1 | ⟨_, h2⟩
      · exact hp q h1
      · rcases h2 with h2 | ⟨w, hw⟩
        · rw [h2]
          cases hh : eq p.1 k with
          | false => rfl
          | true => rw [hv.symm] at hh; rw [hh] at h; simp at h
        · exact hp (q.1, w) hw

theorem keysND_aerase {k : κ} {l : List (κ × α)}
    (hnd : keysND eq l) : keysND eq (aerase eq k l) := by
  induction l with
  | nil => simp [aerase]; exact hnd
  | cons p rest ih =>
    obtain ⟨hp, hrest⟩ := keysND_cons.mp hnd
    cases h : eq k p.1 with
    | true =>
      simp only [aerase, h, if_pos rfl]
      exact hrest
    | false =>
      simp only [aerase, h]
      rw [if_neg (by simp)]
      exact keysND_cons.mpr ⟨fun q hq => hp q (mem_aerase hq), ih hrest⟩

theorem alookup_of_mem (hv : IsEqv eq) {k k0 : κ} {v : α} {l : List (κ × α)}
    (hnd : keysND eq l) (hmem : (k0, v) ∈ l) (hk : eq k k0 = true) :
    alookup eq k l = some v := by
  induction l with
  | nil => simp at hmem
  | cons p rest ih =>
    obtain ⟨hp, hrest⟩ := keysND_cons.mp hnd
    rcases List.mem_cons.mp hmem with h1 | h1
    · cases h1
      simp [alookup, hk]
    · have hne : eq k p.1 = false := by
        cases hh : eq k p.1 with
        | false => rfl
        | true =>
          have h2 : eq p.1 k0 = true :=
            hv.trans p.1 k k0 (by rw [hv.symm]; exact hh) hk
          rw [hp (k0, v) h1] at h2; simp at h2
      simp [alookup, hne, ih hrest h1]

theorem aset_of_none {k : κ} {v : α} {l : List (κ × α)}
    (h : alookup eq k l = none) : aset eq k v l = l ++ [(k, v)] := by
  induction l with
  | nil => simp [aset]
  | cons p rest ih =>
    rw [alookup_none_iff] at h
    have hp : eq k p.1 = false := h p (List.mem_cons_self _ _)
    have hrest : alookup eq k rest = none :=
      alookup_none_iff.mpr fun q hq => h q (List.mem_cons_of_mem _ hq)
    simp only [aset, hp]
    rw [if_neg (by simp), ih hrest]
    simp

theorem aerase_of_none {k : κ} {l : List (κ × α)}
    (h : alookup eq k l = none) : aerase eq k l = l := by
  induction l with
  | nil => simp [aerase]
  | cons p rest ih =>
    rw [alookup_none_iff] at h
    have hp : eq k p.1 = false := h p (List.mem_cons_self _ _)
    have hrest : alookup eq k rest = none :=
      alookup_none_iff.mpr fun q hq => h q (List.mem_cons_of_mem _ hq)
    simp only [aerase, hp]
    rw [if_neg (by simp), ih hrest]

theorem keys_aset_of_found {k : κ} {v w : α} {l : List (κ × α)}
    (h : alookup eq k l = some w) :
    (aset eq k v l).map Prod.fst = l.map Prod.fst := by
  induction l with
  | nil => simp [alookup] at h
  | cons p rest ih =>
    cases hp : eq k p.1 with
    | true => simp [aset, hp]
    | false =>
      simp only [alookup, hp] at h
      rw [if_neg (by simp)] at h
      simp only [aset, hp]
      rw [if_neg (by simp)]
      simp [ih h]

end AssocLemmas

/-! ## Index lemmas -/

theorem pyEq_ne_null {a v : Value} (h : pyEq a v = true) (hv : v ≠ Value.null) :
    a ≠ Value.null := by
  intro ha
  rw [ha] at h
  rw [pyEq_symm] at h
  exact hv (pyEq_null_iff.mp h)

theorem search_congr {idx : Index} {a b : Value} (h : pyEq a b = true) :
    idx.search a = idx.search b := by
  unfold Index.search
  rw [alookup_congr isEqv_pyEq h]

theorem mem_search_iff {idx : Index} {v : Value} {rid : Nat}
    (hnd : keysND pyEq idx.entries) :
    rid ∈ idx.search v ↔ ∃ e ∈ idx.entries, pyEq v e.1 = true ∧ rid ∈ e.2 := by
  constructor
  · intro h
    unfold Index.search at h
    cases hl : alookup pyEq v idx.entries with
    | none => rw [hl] at h; simp at h
    | some ids =>
      rw [hl] at h
      obtain ⟨k0, hk0, he⟩ := alookup_mem hl
      exact ⟨(k0, ids), hk0, he, h⟩
  · rintro ⟨e, hmem, hpe, hrid⟩
    unfold Index.search
    rw [alookup_of_mem isEqv_pyEq hnd (by simpa using hmem) hpe]
    exact hrid

theorem search_len_le_one {idx : Index} {v : Value}
    (hwf : IndexWF idx) (hu : idx.is_unique = true) :
    (idx.search v).length ≤ 1 := by
  unfold Index.search
  cases hl : alookup pyEq v idx.entries with
  | none => simp
  | some ids =>
    obtain ⟨k0, hk0, _⟩ := alookup_mem hl
    exact hwf.2.2 hu (k0, ids) hk0

theorem insert_null {idx : Index} {rid : Nat} :
    idx.insert Value.null rid = (idx, true) := by
  simp [Index.insert]

theorem insert_of_empty {idx : Index} {v : Value} {rid : Nat}
    (hv : v ≠ Value.null) (hcur : idx.search v = []) :
    idx.insert v rid =
      ({ idx with entries := aset pyEq v [rid] idx.entries }, true) := by
  unfold Index.insert
  rw [if_neg hv]
  unfold Index.search at hcur
  cases hl : alookup pyEq v idx.entries with
  | none => simp [setAdd]
  | some ids =>
    rw [hl] at hcur
    simp only [Option.getD_some] at hcur
    subst hcur
    simp [setAdd]

theorem delete_is_unique {idx : Index} {v : Value} {rid : Nat} :
    (idx.delete v rid).is_unique = idx.is_unique := by
  unfold Index.delete
  cases alookup pyEq v idx.entries with
  | none => rfl
  | some ids => dsimp only; split <;> rfl

theorem delete_column_name {idx : Index} {v : Value} {rid : Nat} :
    (idx.delete v rid).column_name = idx.column_name := by
  unfold Index.delete
  cases alookup pyEq v idx.entries with
  | none => rfl
  | some ids => dsimp only; split <;> rfl

theorem search_delete {idx : Index} {v : Value} {rid : Nat}
    (hnd : keysND pyEq idx.entries) (w : Value) :
    (idx.delete v rid).search w =
      if pyEq w v = true then (idx.search w).filter (fun r => decide (r ≠ rid))
      else idx.search w := by
  unfold Index.delete
  cases hl : alookup pyEq v idx.entries with
  | none =>
    by_cases hwv : pyEq w v = true
    · rw [if_pos hwv]
      have h2 : idx.search w = idx.search v := search_congr hwv
      rw [h2]
      unfold Index.search
      rw [hl]
      rfl
    · rw [if_neg hwv]
  | some ids =>
    have hfalse : ¬ pyEq w v = true → pyEq w v = false := by
      cases pyEq w v <;> simp
    dsimp only
    by_cases he : (List.filter (fun r => decide (r ≠ rid)) ids).isEmpty = true
    · rw [if_pos he]
      by_cases hwv : pyEq w v = true
      · rw [if_pos hwv]
        show (alookup pyEq w (aerase pyEq v idx.entries)).getD [] = _
        rw [alookup_congr isEqv_pyEq hwv, alookup_aerase_self isEqv_pyEq hnd]
        have h2 : idx.search w = idx.search v := search_congr hwv
        rw [h2]
        unfold Index.search
        rw [hl]
        simp only [Option.getD_some, Option.getD_none]
        exact (List.isEmpty_iff.mp he).symm
      · rw [if_neg hwv]
        show (alookup pyEq w (aerase pyEq v idx.entries)).getD [] = idx.search w
        rw [alookup_aerase_ne (hfalse hwv) isEqv_pyEq]
        rfl
    · rw [if_neg he]
      by_cases hwv : pyEq w v = true
      · rw [if_pos hwv]
        show (alookup pyEq w
          (aset pyEq v (List.filter (fun r => decide (r ≠ rid)) ids) idx.entries)).getD [] = _
        rw [alookup_congr isEqv_pyEq hwv, alookup_aset_self isEqv_pyEq]
        have h2 : idx.search w = idx.search v := search_congr hwv
        rw [h2]
        unfold Index.search
        rw [hl]
        rfl
      · rw [if_neg hwv]
        show (alookup pyEq w
          (aset pyEq v (List.filter (fun r => decide (r ≠ rid)) ids) idx.entries)).getD []
          = idx.search w
        rw [alookup_aset_ne (hfalse hwv) _ isEqv_pyEq]
        rfl

theorem IndexWF_delete {idx : Index} {v : Value} {rid : Nat}
    (hwf : IndexWF idx) : IndexWF (idx.delete v rid) := by
  obtain ⟨hnd, hent, huniq⟩ := hwf
  unfold Index.delete
  cases hl : alookup pyEq v idx.entries with
  | none => exact ⟨hnd, hent, huniq⟩
  | some ids =>
    by_cases he : (ids.filter (fun r => decide (r ≠ rid))).isEmpty
    · simp only [he, if_pos rfl]
      refine ⟨keysND_aerase hnd, ?_, ?_⟩
      · exact fun e hmem => hent e (mem_aerase hmem)
      · exact fun hu e hmem => huniq hu e (mem_aerase hmem)
    · simp only [he]
      rw [if_neg (by simp)]
      refine ⟨keysND_aset isEqv_pyEq hnd, ?_, ?_⟩
      · intro e hmem
        obtain ⟨k0, hk0, hke⟩ := alookup_mem hl
        rcases mem_aset hmem with h1 | ⟨h1, h2⟩
        · exact hent e h1
        · constructor
          · rcases h2 with h2 | ⟨w, hw⟩
            · rw [h2]
              exact pyEq_ne_null hke ((hent (k0, ids) hk0).1)
            · exact (hent (e.1, w) hw).1
          · rw [h1]
            exact List.Nodup.filter _ ((hent (k0, ids) hk0).2)
      · intro hu e hmem
        rcases mem_aset hmem with h1 | ⟨h1, h2⟩
        · exact huniq hu e h1
        · rw [h1]
          calc (ids.filter (fun r => decide (r ≠ rid))).length
              ≤ ids.length := List.length_filter_le _ _
            _ ≤ 1 := by
                obtain ⟨k0, hk0, _⟩ := alookup_mem hl
                exact huniq hu (k0, ids) hk0

theorem bool_not_true {b : Bool} (h : ¬ b = true) : b = false := by
  cases b
  · rfl
  · exact absurd rfl h

theorem search_entries_aset {cn : String} {u : Bool} {entries : List (Value × List Nat)}
    {v : Value} {ids : List Nat} (w : Value) :
    (Index.mk cn u (aset pyEq v ids entries)).search w
      = if pyEq w v = true then ids else (Index.mk cn u entries).search w := by
  by_cases hwv : pyEq w v = true
  · rw [if_pos hwv]
    show (alookup pyEq w (aset pyEq v ids entries)).getD [] = ids
    rw [alookup_congr isEqv_pyEq hwv, alookup_aset_self isEqv_pyEq]
    rfl
  · rw [if_neg hwv]
    show (alookup pyEq w (aset pyEq v ids entries)).getD []
      = (alookup pyEq w entries).getD []
    rw [alookup_aset_ne (bool_not_true hwv) _ isEqv_pyEq]

theorem search_insert_of_empty {idx : Index} {v : Value} {rid : Nat}
    (hv : v ≠ Value.null) (hcur : idx.search v = []) (w : Value) :
    ((idx.insert v rid).1).search w
      = if pyEq w v = true then [rid] else idx.search w := by
  rw [insert_of_empty hv hcur]
  exact search_entries_aset w

theorem IndexWF_insert_of_empty {idx : Index} {v : Value} {rid : Nat}
    (hwf : IndexWF idx) (hv : v ≠ Value.null) (hcur : idx.search v = []) :
    IndexWF (idx.insert v rid).1 := by
  rw [insert_of_empty hv hcur]
  obtain ⟨hnd, hent, huniq⟩ := hwf
  refine ⟨keysND_aset isEqv_pyEq hnd, ?_, ?_⟩
  · intro e hmem
    rcases mem_aset hmem with h1 | ⟨h1, h2⟩
    · exact hent e h1
    · refine ⟨?_, by rw [h1]; exact List.nodup_singleton rid⟩
      rcases h2 with h2 | ⟨w, hw⟩
      · rw [h2]; exact hv
      · exact (hent (e.1, w) hw).1
  · intro hu e hmem
    rcases mem_aset hmem with h1 | ⟨h1, h2⟩
    · exact huniq hu e h1
    · rw [h1]; simp

theorem insert_fst_is_unique {idx : Index} {v : Value} {rid : Nat} :
    ((idx.insert v rid).1).is_unique = idx.is_unique := by
  unfold Index.insert
  split
  · rfl
  · split
    · rfl
    · rfl

theorem insert_fst_column_name {idx : Index} {v : Value} {rid : Nat} :
    ((idx.insert v rid).1).column_name = idx.column_name := by
  unfold Index.insert
  split
  · rfl
  · split
    · rfl
    · rfl

/-- Bridge between the entry-level and the search-level statements of
index synchronisation. -/
theorem synced_iff {idx : Index} {cn : String} {rows : List (Nat × Row)}
    (hwf : IndexWF idx) : IndexSynced idx cn rows ↔ SyncedS idx cn rows := by
  obtain ⟨hnd, hent, _⟩ := hwf
  constructor
  · rintro ⟨h1, h2⟩ v hv rid
    constructor
    · intro hs
      obtain ⟨e, hmem, hpe, hride⟩ := (mem_search_iff hnd).mp hs
      obtain ⟨p, hp, hpid, hpv⟩ := h1 e hmem rid hride
      refine ⟨p, hp, hpid, ?_⟩
      exact pyEq_trans hpv (by rw [pyEq_symm]; exact hpe)
    · rintro ⟨p, hp, hpid, hpv⟩
      have hg : rowGet p.2 cn ≠ Value.null := pyEq_ne_null hpv hv
      have := h2 p hp hg
      rw [search_congr hpv] at this
      rw [← hpid]
      exact this
  · intro hs
    constructor
    · intro e hmem rid hride
      have hkey : e.1 ≠ Value.null := (hent e hmem).1
      have hin : rid ∈ idx.search e.1 :=
        (mem_search_iff hnd).mpr ⟨e, hmem, pyEq_rfl e.1, hride⟩
      exact ((hs e.1 hkey rid).mp hin)
    · intro p hp hg
      exact ((hs (rowGet p.2 cn) hg p.1).mpr ⟨p, hp, rfl, pyEq_rfl _⟩)

/-! ## Row lemmas -/

theorem rowGet_rowSet_self {row : Row} {cn : String} {v : Value} :
    rowGet (rowSet row cn v) cn = v := by
  unfold rowGet rowSet
  rw [alookup_aset_self isEqv_strEq]
  rfl

theorem rowGet_rowSet_ne {row : Row} {cn cn2 : String} {v : Value}
    (h : cn2 ≠ cn) : rowGet (rowSet row cn v) cn2 = rowGet row cn2 := by
  unfold rowGet rowSet
  rw [alookup_aset_ne (by simp [strEq, h]) _ isEqv_strEq]

theorem alookup_strict_iff_mem {κ α : Type} {eq : κ → κ → Bool}
    (hstrict : ∀ a b, eq a b = true ↔ a = b) (hv : IsEqv eq)
    {l : List (κ × α)} (hnd : keysND eq l) {k : κ} {v : α} :
    alookup eq k l = some v ↔ (k, v) ∈ l := by
  constructor
  · intro h
    obtain ⟨k0, hk0, he⟩ := alookup_mem h
    rw [(hstrict k k0).mp he]
    exact hk0
  · intro h
    exact alookup_of_mem hv hnd h ((hstrict k k).mpr rfl)

theorem mem_unique_of_keysND {κ α : Type} {eq : κ → κ → Bool}
    (hstrict : ∀ a b, eq a b = true ↔ a = b) (hv : IsEqv eq)
    {l : List (κ × α)} (hnd : keysND eq l) {k : κ} {a b : α}
    (ha : (k, a) ∈ l) (hb : (k, b) ∈ l) : a = b := by
  have h1 := (alookup_strict_iff_mem hstrict hv hnd).mpr ha
  have h2 := (alookup_strict_iff_mem hstrict hv hnd).mpr hb
  rw [h1] at h2
  exact Option.some.inj h2

/-! ## Further dict lemmas for the preservation proofs -/

theorem mem_aset_strict_iff {κ α : Type} {eq : κ → κ → Bool}
    (hstrict : ∀ a b, eq a b = true ↔ a = b)
    {q : κ × α} {k : κ} {v : α} :
    ∀ {l : List (κ × α)}, keysND eq l →
      (q ∈ aset eq k v l ↔ ((q ∈ l ∧ q.1 ≠ k) ∨ q = (k, v)))
  | [], _ => by
    simp [aset]
  | p :: rest, hnd => by
    obtain ⟨hp, hrest⟩ := keysND_cons.mp hnd
    cases h : eq k p.1 with
    | true =>
      have hkp : k = p.1 := (hstrict k p.1).mp h
      simp only [aset, h, if_pos rfl]
      constructor
      · intro hq
        rcases List.mem_cons.mp hq with h1 | h1
        · right; rw [h1, hkp]
        · left
          refine ⟨List.mem_cons_of_mem _ h1, ?_⟩
          intro he
          have := hp q h1
          rw [he, ← hkp] at this
          rw [(hstrict k k).mpr rfl] at this
          exact Bool.noConfusion this
      · rintro (⟨h1, h2⟩ | h1)
        · rcases List.mem_cons.mp h1 with h3 | h3
          · exact absurd (by rw [h3, hkp]) h2
          · exact List.mem_cons_of_mem _ h3
        · rw [h1, hkp]; exact List.mem_cons_self _ _
    | false =>
      have hkp : k ≠ p.1 := fun he => by
        rw [(hstrict k p.1).mpr he] at h; exact Bool.noConfusion h
      simp only [aset, h]
      rw [if_neg (by simp)]
      constructor
      · intro hq
        rcases List.mem_cons.mp hq with h1 | h1
        · exact Or.inl ⟨h1 ▸ List.mem_cons_self _ _, by rw [h1]; exact fun he => hkp he.symm⟩
        · rcases (mem_aset_strict_iff hstrict hrest).mp h1 with ⟨h2, h3⟩ | h2
          · exact Or.inl ⟨List.mem_cons_of_mem _ h2, h3⟩
          · exact Or.inr h2
      · rintro (⟨h1, h2⟩ | h1)
        · rcases List.mem_cons.mp h1 with h3 | h3
          · exact h3 ▸ List.mem_cons_self _ _
          · exact List.mem_cons_of_mem _
              ((mem_aset_strict_iff hstrict hrest).mpr (Or.inl ⟨h3, h2⟩))
        · exact List.mem_cons_of_mem _
            ((mem_aset_strict_iff hstrict hrest).mpr (Or.inr h1))

theorem mem_aerase_strict_iff {κ α : Type} {eq : κ → κ → Bool}
    (hstrict : ∀ a b, eq a b = true ↔ a = b)
    {q : κ × α} {k : κ} :
    ∀ {l : List (κ × α)}, keysND eq l →
      (q ∈ aerase eq k l ↔ (q ∈ l ∧ q.1 ≠ k))
  | [], _ => by simp [aerase]
  | p :: rest, hnd => by
    obtain ⟨hp, hrest⟩ := keysND_cons.mp hnd
    cases h : eq k p.1 with
    | true =>
      have hkp : k = p.1 := (hstrict k p.1).mp h
      simp only [aerase, h, if_pos rfl]
      constructor
      · intro hq
        refine ⟨List.mem_cons_of_mem _ hq, ?_⟩
        intro he
        have := hp q hq
        rw [he, ← hkp, (hstrict k k).mpr rfl] at this
        exact Bool.noConfusion this
      · rintro ⟨h1, h2⟩
        rcases List.mem_cons.mp h1 with h3 | h3
        · exact absurd (by rw [h3, hkp]) h2
        · exact h3
    | false =>
      have hkp : k ≠ p.1 := fun he => by
        rw [(hstrict k p.1).mpr he] at h; exact Bool.noConfusion h
      simp only [aerase, h]
      rw [if_neg (by simp)]
      constructor
      · intro hq
        rcases List.mem_cons.mp hq with h1 | h1
        · exact ⟨h1 ▸ List.mem_cons_self _ _, by rw [h1]; exact fun he => hkp he.symm⟩
        · obtain ⟨h2, h3⟩ := (mem_aerase_strict_iff hstrict hrest).mp h1
          exact ⟨List.mem_cons_of_mem _ h2, h3⟩
      · rintro ⟨h1, h2⟩
        rcases List.mem_cons.mp h1 with h3 | h3
        · exact h3 ▸ List.mem_cons_self _ _
        · exact List.mem_cons_of_mem _
            ((mem_aerase_strict_iff hstrict hrest).mpr ⟨h3, h2⟩)

theorem alookup_map_snd {κ α β : Type} {eq : κ → κ → Bool} (f : κ × α → β) (k : κ) :
    ∀ (l : List (κ × α)),
      alookup eq k (l.map (fun p => (p.1, f p)))
        = (l.find? (fun p => eq k p.1)).map f := by
  intro l
  induction l with
  | nil => rfl
  | cons p rest ih =>
    cases h : eq k p.1 with
    | true => simp [alookup, List.find?, h]
    | false => simp [alookup, List.find?, h, ih]

theorem alookup_eq_find? {κ α : Type} {eq : κ → κ → Bool} (k : κ) :
    ∀ (l : List (κ × α)), alookup eq k l = (l.find? (fun p => eq k p.1)).map Prod.snd := by
  intro l
  induction l with
  | nil => rfl
  | cons p rest ih =>
    cases h : eq k p.1 with
    | true => simp [alookup, List.find?, h]
    | false => simp [alookup, List.find?, h, ih]

theorem keysND_map_snd {κ α β : Type} {eq : κ → κ → Bool} (f : κ × α → β) :
    ∀ {l : List (κ × α)}, keysND eq l → keysND eq (l.map (fun p => (p.1, f p))) := by
  intro l hnd
  unfold keysND at hnd ⊢
  rw [List.pairwise_map]
  exact hnd.imp (fun h => h)

theorem filter_ne_nil_eq_nil {l : List Nat} {rid : Nat}
    (hf : l.filter (fun r => decide (r ≠ rid)) = []) (hr : rid ∉ l) : l = [] := by
  cases l with
  | nil => rfl
  | cons x rest =>
    exfalso
    by_cases hx : x = rid
    · exact hr (hx ▸ List.mem_cons_self _ _)
    · have : x ∈ List.filter (fun r => decide (r ≠ rid)) (x :: rest) :=
        List.mem_filter.mpr ⟨List.mem_cons_self _ _, by simp [hx]⟩
      rw [hf] at this
      simp at this

/-- What a successful constraint check guarantees column by column. -/
theorem checkConstraintsCols_ok {indexes : List (String × Index)} {row : Row}
    {ex : Option Nat} :
    ∀ {cols : List Column},
      checkConstraintsCols indexes row ex cols = Except.ok () →
      ∀ col ∈ cols,
        (col.is_primary = true → rowGet row col.name ≠ Value.null) ∧
        ((col.is_primary = true ∨ col.is_unique = true) →
          rowGet row col.name ≠ Value.null →
          ∃ idx, alookup strEq col.name indexes = some idx ∧
            (match ex with
             | some e => (idx.search (rowGet row col.name)).filter
                 (fun r => decide (r ≠ e))
             | none => idx.search (rowGet row col.name)) = [])
  | [], _, col, hmem => by simp at hmem
  | col :: rest, h, c2, hmem => by
    by_cases hb1 : col.is_primary = true ∧ rowGet row col.name = Value.null
    · exfalso
      simp only [checkConstraintsCols] at h
      rw [if_pos hb1] at h
      exact Except.noConfusion h
    · by_cases hb2 : (col.is_primary = true ∨ col.is_unique = true) ∧
          rowGet row col.name ≠ Value.null
      · rcases hl : alookup strEq col.name indexes with _ | idx
        · exfalso
          simp only [checkConstraintsCols] at h
          rw [if_neg hb1, if_pos hb2, hl] at h
          exact Except.noConfusion h
        · by_cases hhv : idx.has_value (rowGet row col.name) = true
          · by_cases hrem : (match ex with
                | some e => (idx.search (rowGet row col.name)).filter
                    (fun r => decide (r ≠ e))
                | none => idx.search (rowGet row col.name)) = []
            · have hrest : checkConstraintsCols indexes row ex rest = Except.ok () := by
                simp only [checkConstraintsCols] at h
                rw [if_neg hb1, if_pos hb2, hl] at h
                dsimp only at h
                rw [if_pos hhv] at h
                rw [if_pos (List.isEmpty_iff.mpr hrem)] at h
                exact h
              rcases List.mem_cons.mp hmem with h0 | h0
              · subst h0
                exact ⟨fun hpk hnl => hb1 ⟨hpk, hnl⟩,
                  fun _ _ => ⟨idx, hl, hrem⟩⟩
              · exact checkConstraintsCols_ok hrest c2 h0
            · exfalso
              simp only [checkConstraintsCols] at h
              rw [if_neg hb1, if_pos hb2, hl] at h
              dsimp only at h
              rw [if_pos hhv] at h
              rw [if_neg (fun hcontra => hrem (List.isEmpty_iff.mp hcontra))] at h
              exact Except.noConfusion h
          · have hsearch : idx.search (rowGet row col.name) = [] := by
              unfold Index.has_value at hhv
              unfold Index.search
              cases hl2 : alookup pyEq (rowGet row col.name) idx.entries with
              | none => rfl
              | some ids => rw [hl2] at hhv; simp at hhv
            have hrest : checkConstraintsCols indexes row ex rest = Except.ok () := by
              simp only [checkConstraintsCols] at h
              rw [if_neg hb1, if_pos hb2, hl] at h
              dsimp only at h
              rw [if_neg hhv] at h
              exact h
            rcases List.mem_cons.mp hmem with h0 | h0
            · subst h0
              refine ⟨fun hpk hnl => hb1 ⟨hpk, hnl⟩, fun _ _ => ⟨idx, hl, ?_⟩⟩
              rw [hsearch]
              cases ex <;> rfl
            · exact checkConstraintsCols_ok hrest c2 h0
      · have hrest : checkConstraintsCols indexes row ex rest = Except.ok () := by
          simp only [checkConstraintsCols] at h
          rw [if_neg hb1, if_neg hb2] at h
          exact h
        rcases List.mem_cons.mp hmem with h0 | h0
        · subst h0
          exact ⟨fun hpk hnl => hb1 ⟨hpk, hnl⟩,
            fun hf hnn => absurd ⟨hf, hnn⟩ hb2⟩
        · exact checkConstraintsCols_ok hrest c2 h0

theorem alookup_aset_isSome_mono {κ α : Type} {eq : κ → κ → Bool}
    (hv : IsEqv eq) {a k : κ} {v : α} {l : List (κ × α)}
    (h : (alookup eq a l).isSome = true) :
    (alookup eq a (aset eq k v l)).isSome = true := by
  cases hak : eq a k with
  | true =>
    rw [alookup_congr hv hak, alookup_aset_self hv]
    rfl
  | false =>
    rw [alookup_aset_ne hak _ hv]
    exact h

theorem mkIndexes_foldl_spec (cols0 : List Column) :
    ∀ (cols : List Column) (acc : List (String × Index)),
      (∀ col ∈ cols, col ∈ cols0) →
      keysND strEq acc →
      (∀ p ∈ acc, p.2 = Index.mk p.1 true [] ∧
        ∃ col ∈ cols0, col.name = p.1 ∧
          (col.is_primary = true ∨ col.is_unique = true)) →
      keysND strEq (List.foldl
        (fun idxs col =>
          if col.is_primary || col.is_unique then
            aset strEq col.name
              (Index.mk col.name (col.is_primary || col.is_unique) []) idxs
          else idxs) acc cols) ∧
      (∀ p ∈ List.foldl
        (fun idxs col =>
          if col.is_primary || col.is_unique then
            aset strEq col.name
              (Index.mk col.name (col.is_primary || col.is_unique) []) idxs
          else idxs) acc cols,
        p.2 = Index.mk p.1 true [] ∧
        ∃ col ∈ cols0, col.name = p.1 ∧
          (col.is_primary = true ∨ col.is_unique = true)) ∧
      (∀ col ∈ cols, (col.is_primary = true ∨ col.is_unique = true) →
        (alookup strEq col.name (List.foldl
          (fun idxs col =>
            if col.is_primary || col.is_unique then
              aset strEq col.name
                (Index.mk col.name (col.is_primary || col.is_unique) []) idxs
            else idxs) acc cols)).isSome = true) ∧
      (∀ k, (alookup strEq k acc).isSome = true →
        (alookup strEq k (List.foldl
          (fun idxs col =>
            if col.is_primary || col.is_unique then
              aset strEq col.name
                (Index.mk col.name (col.is_primary || col.is_unique) []) idxs
            else idxs) acc cols)).isSome = true)
  | [], acc, _, hnd, hacc => ⟨hnd, hacc, by simp, fun _ h => h⟩
  | col :: rest, acc, hsub, hnd, hacc => by
    cases hflag : col.is_primary || col.is_unique with
    | false =>
      have ih := mkIndexes_foldl_spec cols0 rest acc
        (fun c hc => hsub c (List.mem_cons_of_mem _ hc)) hnd hacc
      simp only [List.foldl_cons]
      rw [if_neg (by simp [hflag])]
      refine ⟨ih.1, ih.2.1, ?_, ih.2.2.2⟩
      intro c hc hf
      rcases List.mem_cons.mp hc with h0 | h0
      · subst h0
        exfalso
        rcases hf with hf | hf <;> simp [hf] at hflag
      · exact ih.2.2.1 c h0 hf
    | true =>
      have hnd2 : keysND strEq (aset strEq col.name (Index.mk col.name true []) acc) :=
        keysND_aset isEqv_strEq hnd
      have hacc2 : ∀ p ∈ aset strEq col.name (Index.mk col.name true []) acc,
          p.2 = Index.mk p.1 true [] ∧
          ∃ c2 ∈ cols0, c2.name = p.1 ∧
            (c2.is_primary = true ∨ c2.is_unique = true) := by
        intro p hp
        rcases (mem_aset_strict_iff (fun a b => strEq_iff) hnd).mp hp with ⟨h1, _⟩ | h1
        · exact hacc p h1
        · rw [h1]
          exact ⟨rfl, col, hsub col (List.mem_cons_self _ _), rfl,
            by simpa using hflag⟩
      have ih := mkIndexes_foldl_spec cols0 rest
        (aset strEq col.name (Index.mk col.name true []) acc)
        (fun c hc => hsub c (List.mem_cons_of_mem _ hc)) hnd2 hacc2
      simp only [List.foldl_cons]
      rw [if_pos hflag, hflag]
      refine ⟨ih.1, ih.2.1, ?_, ?_⟩
      · intro c hc hf
        rcases List.mem_cons.mp hc with h0 | h0
        · subst h0
          refine ih.2.2.2 c.name ?_
          rw [alookup_aset_self isEqv_strEq]
          rfl
        · exact ih.2.2.1 c h0 hf
      · intro k hk
        exact ih.2.2.2 k (alookup_aset_isSome_mono isEqv_strEq hk)

theorem mkIndexes_spec (cols : List Column) :
    keysND strEq (mkIndexes cols) ∧
    (∀ p ∈ mkIndexes cols, p.2 = Index.mk p.1 true [] ∧
      ∃ col ∈ cols, col.name = p.1 ∧
        (col.is_primary = true ∨ col.is_unique = true)) ∧
    (∀ col ∈ cols, (col.is_primary = true ∨ col.is_unique = true) →
      (alookup strEq col.name (mkIndexes cols)).isSome = true) := by
  have h := mkIndexes_foldl_spec cols cols [] (fun _ hc => hc)
    (by exact List.Pairwise.nil) (by simp)
  exact ⟨h.1, h.2.1, h.2.2.1⟩

/-- New tables created by `_execute_create_table` are well-formed. -/
theorem tableWF_create (columns : List Column) :
    TableWF (Table.mk columns [] (mkIndexes columns) 1) := by
  obtain ⟨hnd, hmem, hlook⟩ := mkIndexes_spec columns
  refine ⟨List.Pairwise.nil, by simp, le_refl 1, hnd, ?_, ?_, ?_, by simp⟩
  · intro p hp
    obtain ⟨hshape, _⟩ := hmem p hp
    refine ⟨by rw [hshape], ?_, ?_⟩
    · rw [hshape]
      exact ⟨List.Pairwise.nil, by simp, by simp⟩
    · rw [hshape]
      exact ⟨by simp, by simp⟩
  · intro p hp
    exact (hmem p hp).2
  · intro col hc hf
    exact hlook col hc hf

/-- `_execute_create_table` preserves the registry invariant. -/
theorem execCreateTable_inv {db : DB} {name : String} {colDefs : List ColDef}
    (hinv : DBInv db) : DBInv (execCreateTable db name colDefs).1 := by
  obtain ⟨hndt, htwf⟩ := hinv
  unfold execCreateTable
  by_cases hex : (alookup strEq name db.tables).isSome = true
  · rw [if_pos hex]
    exact ⟨hndt, htwf⟩
  · rw [if_neg hex]
    cases hb : buildColumns colDefs with
    | error e => exact ⟨hndt, htwf⟩
    | ok p =>
      refine ⟨keysND_aset isEqv_strEq hndt, ?_⟩
      intro q hq
      rcases (mem_aset_strict_iff (fun a b => strEq_iff) hndt).mp hq with ⟨h1, _⟩ | h1
      · exact htwf q h1
      · rw [h1]
        exact tableWF_create p.1

theorem alookup_map_snd_isSome {κ α β : Type} {eq : κ → κ → Bool}
    (f : κ × α → β) (k : κ) (l : List (κ × α)) :
    (alookup eq k (l.map (fun p => (p.1, f p)))).isSome
      = (alookup eq k l).isSome := by
  rw [alookup_map_snd, alookup_eq_find?]
  cases l.find? (fun p => eq k p.1) <;> rfl

theorem rows_lookup_fresh {rows : List (Nat × Row)} {n : Nat}
    (h : ∀ p ∈ rows, p.1 < n) : alookup natEq n rows = none := by
  rw [alookup_none_iff]
  intro p hp
  have hlt := h p hp
  simp only [natEq, decide_eq_false_iff_not]
  omega

theorem insertIndexLoop_ok {rowData : Row} {rid : Nat} :
    ∀ {idxs : List (String × Index)},
      (∀ p ∈ idxs, ((p.2).insert (rowGet rowData p.1) rid).2 = true) →
      insertIndexLoop rowData rid idxs
        = (idxs.map (fun p => (p.1, ((p.2).insert (rowGet rowData p.1) rid).1)), none)
  | [], _ => rfl
  | (cn, idx) :: rest, h => by
    have hc := h (cn, idx) (List.mem_cons_self _ _)
    simp only [insertIndexLoop]
    rw [if_pos hc]
    rw [insertIndexLoop_ok (fun q hq => h q (List.mem_cons_of_mem _ hq))]
    simp

/-- Synchronisation is preserved when a fresh row is appended and its
value inserted into an index whose set for that value was empty. -/
theorem syncedS_insert {idx : Index} {cn : String} {rows : List (Nat × Row)}
    {rowData : Row} {rid : Nat}
    (hs : SyncedS idx cn rows)
    (hemp : rowGet rowData cn ≠ Value.null →
      idx.search (rowGet rowData cn) = []) :
    SyncedS ((idx.insert (rowGet rowData cn) rid).1) cn
      (rows ++ [(rid, rowData)]) := by
  intro v hv rid2
  by_cases hnull : rowGet rowData cn = Value.null
  · rw [hnull, insert_null]
    constructor
    · intro h
      obtain ⟨p, hp, h1, h2⟩ := (hs v hv rid2).mp h
      exact ⟨p, List.mem_append_left _ hp, h1, h2⟩
    · rintro ⟨p, hp, h1, h2⟩
      rcases List.mem_append.mp hp with hp2 | hp2
      · exact (hs v hv rid2).mpr ⟨p, hp2, h1, h2⟩
      · exfalso
        simp only [List.mem_singleton] at hp2
        rw [hp2] at h2
        simp only at h2
        rw [hnull, pyEq_symm] at h2
        exact hv (pyEq_null_iff.mp h2)
  · rw [search_insert_of_empty hnull (hemp hnull)]
    by_cases hpe : pyEq v (rowGet rowData cn) = true
    · rw [if_pos hpe]
      constructor
      · intro h
        simp only [List.mem_singleton] at h
        refine ⟨(rid, rowData), List.mem_append_right _ (by simp), by rw [h], ?_⟩
        rw [pyEq_symm]
        exact hpe
      · rintro ⟨p, hp, h1, h2⟩
        rcases List.mem_append.mp hp with hp2 | hp2
        · exfalso
          have h3 : pyEq (rowGet p.2 cn) (rowGet rowData cn) = true := pyEq_trans h2 hpe
          have h4 := (hs (rowGet rowData cn) hnull p.1).mpr ⟨p, hp2, rfl, h3⟩
          rw [hemp hnull] at h4
          simp at h4
        · simp only [List.mem_singleton] at hp2
          rw [← h1, hp2]
          simp
    · rw [if_neg hpe]
      constructor
      · intro h
        obtain ⟨p, hp, h1, h2⟩ := (hs v hv rid2).mp h
        exact ⟨p, List.mem_append_left _ hp, h1, h2⟩
      · rintro ⟨p, hp, h1, h2⟩
        rcases List.mem_append.mp hp with hp2 | hp2
        · exact (hs v hv rid2).mpr ⟨p, hp2, h1, h2⟩
        · exfalso
          simp only [List.mem_singleton] at hp2
          rw [hp2] at h2
          simp only at h2
          rw [pyEq_symm] at h2
          exact hpe h2

/-- After a successful constraint check every per-column index insert of
`_execute_insert` succeeds, and the resulting table is well-formed. -/
theorem tableWF_insert {t : Table} {rowData : Row}
    (hwf : TableWF t)
    (hcc : checkConstraints t rowData none = Except.ok ()) :
    (∀ p ∈ t.indexes, ((p.2).insert (rowGet rowData p.1) t.next_row_id).2 = true) ∧
    TableWF (Table.mk t.schema (aset natEq t.next_row_id rowData t.rows)
      (t.indexes.map
        (fun p => (p.1, ((p.2).insert (rowGet rowData p.1) t.next_row_id).1)))
      (t.next_row_id + 1)) := by
  obtain ⟨hndr, hlt, hpos, hndi, hprops, horigin, hcolidx, hpk⟩ := hwf
  have hccspec := fun col hmem => checkConstraintsCols_ok hcc col hmem
  have hemp : ∀ p ∈ t.indexes, rowGet rowData p.1 ≠ Value.null →
      (p.2).search (rowGet rowData p.1) = [] := by
    intro p hp hnn
    obtain ⟨col, hcolmem, hname, hflags⟩ := horigin p hp
    obtain ⟨idx2, hl2, hs2⟩ := (hccspec col hcolmem).2 hflags (by rw [hname]; exact hnn)
    have hl3 : alookup strEq p.1 t.indexes = some p.2 :=
      (alookup_strict_iff_mem (fun a b => strEq_iff) isEqv_strEq hndi).mpr
        (by simpa using hp)
    rw [hname] at hl2
    rw [hl3] at hl2
    cases hl2
    rw [hname] at hs2
    exact hs2
  have hok : ∀ p ∈ t.indexes,
      ((p.2).insert (rowGet rowData p.1) t.next_row_id).2 = true := by
    intro p hp
    by_cases hnull : rowGet rowData p.1 = Value.null
    · rw [hnull, insert_null]
    · rw [insert_of_empty hnull (hemp p hp hnull)]
  have happ : aset natEq t.next_row_id rowData t.rows
      = t.rows ++ [(t.next_row_id, rowData)] :=
    aset_of_none (rows_lookup_fresh hlt)
  refine ⟨hok, ?_, ?_, by dsimp only; omega, keysND_map_snd _ hndi, ?_, ?_, ?_, ?_⟩
  · exact keysND_aset isEqv_natEq hndr
  · intro p hp
    rcases (mem_aset_strict_iff (fun a b => natEq_iff) hndr).mp hp with ⟨h1, _⟩ | h1
    · have := hlt p h1
      dsimp only
      omega
    · rw [h1]
      dsimp only
      omega
  · intro q hq
    obtain ⟨p, hp, hq2⟩ := List.mem_map.mp hq
    obtain ⟨hu, hiwf, hisync⟩ := hprops p hp
    subst hq2
    refine ⟨by rw [insert_fst_is_unique]; exact hu, ?_, ?_⟩
    · by_cases hnull : rowGet rowData p.1 = Value.null
      · rw [hnull, insert_null]
        exact hiwf
      · exact IndexWF_insert_of_empty hiwf hnull (hemp p hp hnull)
    · have hiwf2 : IndexWF ((p.2).insert (rowGet rowData p.1) t.next_row_id).1 := by
        by_cases hnull : rowGet rowData p.1 = Value.null
        · rw [hnull, insert_null]; exact hiwf
        · exact IndexWF_insert_of_empty hiwf hnull (hemp p hp hnull)
      rw [synced_iff hiwf2]
      rw [happ]
      exact syncedS_insert ((synced_iff hiwf).mp hisync) (hemp p hp)
  · intro q hq
    obtain ⟨p, hp, hq2⟩ := List.mem_map.mp hq
    obtain ⟨col, hcolmem, hname, hflags⟩ := horigin p hp
    exact ⟨col, hcolmem, by rw [← hq2]; exact hname, hflags⟩
  · intro col hc hf
    rw [alookup_map_snd_isSome]
    exact hcolidx col hc hf
  · intro col hc hpk2 p hp
    rcases (mem_aset_strict_iff (fun a b => natEq_iff) hndr).mp hp with ⟨h1, _⟩ | h1
    · exact hpk col hc hpk2 p h1
    · rw [h1]
      exact (hccspec col hc).1 hpk2

/-- `execInsertRow` (and hence `_execute_insert`) preserves the registry
invariant; in particular the defensive rollback branch is unreachable
from well-formed states. -/
theorem execInsertRow_inv {db : DB} {name : String} {t : Table}
    {colNames : List String} {values : List Value}
    (hinv : DBInv db) (ht : TableWF t) :
    DBInv (execInsertRow db name t colNames values).1 := by
  obtain ⟨hndt, htwf⟩ := hinv
  unfold execInsertRow
  by_cases harity : colNames.length ≠ values.length
  · rw [if_pos harity]
    exact ⟨hndt, htwf⟩
  · rw [if_neg harity]
    cases hbr : buildRowData t.schema (colNames.zip values) [] with
    | error e => exact ⟨hndt, htwf⟩
    | ok row0 =>
      dsimp only
      cases hcc : checkConstraints t (fillMissing t.schema row0) none with
      | error e => exact ⟨hndt, htwf⟩
      | ok u =>
        obtain ⟨hok, hwf2⟩ := tableWF_insert ht hcc
        rw [insertIndexLoop_ok hok]
        dsimp only
        refine ⟨keysND_aset isEqv_strEq hndt, ?_⟩
        intro q hq
        rcases (mem_aset_strict_iff (fun a b => strEq_iff) hndt).mp hq with ⟨h1, _⟩ | h1
        · exact htwf q h1
        · rw [h1]
          exact hwf2

theorem update_fst_is_unique {idx : Index} {oldV newV : Value} {rid : Nat} :
    ((idx.update oldV newV rid).1).is_unique = idx.is_unique := by
  unfold Index.update
  rw [insert_fst_is_unique, delete_is_unique]

theorem mem_row_unique {rows : List (Nat × Row)} {rid : Nat} {row : Row}
    {p : Nat × Row} (hndr : keysND natEq rows) (hrowmem : (rid, row) ∈ rows)
    (hp : p ∈ rows) (hid : p.1 = rid) : p.2 = row := by
  refine mem_unique_of_keysND (fun a b => natEq_iff) isEqv_natEq hndr ?_ hrowmem
  rw [← hid]
  simpa using hp

/-- Re-pointing a row at an equal (under Python equality) value keeps an
index in sync. -/
theorem syncedS_update_same {idx : Index} {cn : String} {rows : List (Nat × Row)}
    {row updatedRow : Row} {rid : Nat}
    (hndr : keysND natEq rows)
    (hs : SyncedS idx cn rows)
    (hrowmem : (rid, row) ∈ rows)
    (heq : pyEq (rowGet row cn) (rowGet updatedRow cn) = true) :
    SyncedS idx cn (aset natEq rid updatedRow rows) := by
  intro v hv rid2
  constructor
  · intro h
    obtain ⟨p, hp, h1, h2⟩ := (hs v hv rid2).mp h
    by_cases hpr : p.1 = rid
    · have hpv : p.2 = row := mem_row_unique hndr hrowmem hp hpr
      refine ⟨(rid, updatedRow),
        (mem_aset_strict_iff (fun a b => natEq_iff) hndr).mpr (Or.inr rfl),
        by rw [← h1, hpr], ?_⟩
      simp only
      refine pyEq_trans ?_ h2
      rw [← hpv] at heq
      rw [pyEq_symm]
      exact heq
    · exact ⟨p, (mem_aset_strict_iff (fun a b => natEq_iff) hndr).mpr
        (Or.inl ⟨hp, hpr⟩), h1, h2⟩
  · rintro ⟨p, hp, h1, h2⟩
    rcases (mem_aset_strict_iff (fun a b => natEq_iff) hndr).mp hp with ⟨h3, _⟩ | h3
    · exact (hs v hv rid2).mpr ⟨p, h3, h1, h2⟩
    · refine (hs v hv rid2).mpr ⟨(rid, row), hrowmem, by rw [← h1, h3], ?_⟩
      simp only
      refine pyEq_trans heq ?_
      rw [h3] at h2
      exact h2

/-- The changed-value case of the update index loop: the `Index.update`
succeeds and the result is in sync with the updated row store. -/
theorem syncedS_update_changed {idx : Index} {cn : String} {rows : List (Nat × Row)}
    {row updatedRow : Row} {rid : Nat}
    (hndr : keysND natEq rows)
    (hiwf : IndexWF idx)
    (hs : SyncedS idx cn rows)
    (hrowmem : (rid, row) ∈ rows)
    (hne : pyEq (rowGet row cn) (rowGet updatedRow cn) = false)
    (hfilter : rowGet updatedRow cn ≠ Value.null →
      (idx.search (rowGet updatedRow cn)).filter (fun r => decide (r ≠ rid)) = []) :
    (idx.update (rowGet row cn) (rowGet updatedRow cn) rid).2 = true ∧
    IndexWF (idx.update (rowGet row cn) (rowGet updatedRow cn) rid).1 ∧
    SyncedS (idx.update (rowGet row cn) (rowGet updatedRow cn) rid).1 cn
      (aset natEq rid updatedRow rows) := by
  have hridnotin : rowGet updatedRow cn ≠ Value.null →
      rid ∉ idx.search (rowGet updatedRow cn) := by
    intro hnn hin
    obtain ⟨p, hp, h1, h2⟩ := (hs (rowGet updatedRow cn) hnn rid).mp hin
    have hpv : p.2 = row := mem_row_unique hndr hrowmem hp h1
    rw [hpv] at h2
    rw [h2] at hne
    exact Bool.noConfusion hne
  have hempty : rowGet updatedRow cn ≠ Value.null →
      idx.search (rowGet updatedRow cn) = [] := fun hnn =>
    filter_ne_nil_eq_nil (hfilter hnn) (hridnotin hnn)
  have hdelwf : IndexWF (idx.delete (rowGet row cn) rid) := IndexWF_delete hiwf
  have hdsearch := @search_delete idx (rowGet row cn) rid hiwf.1
  have hmemiff : ∀ q : Nat × Row, q ∈ aset natEq rid updatedRow rows ↔
      ((q ∈ rows ∧ q.1 ≠ rid) ∨ q = (rid, updatedRow)) :=
    fun q => mem_aset_strict_iff (fun a b => natEq_iff) hndr
  -- membership in the deleted index, for any non-null v
  have hdel : ∀ v, v ≠ Value.null → ∀ rid2,
      (rid2 ∈ (idx.delete (rowGet row cn) rid).search v ↔
        ∃ p ∈ rows, p.1 = rid2 ∧ rid2 ≠ rid ∧
          pyEq (rowGet p.2 cn) v = true) := by
    intro v hv rid2
    rw [hdsearch v]
    by_cases hvo : pyEq v (rowGet row cn) = true
    · rw [if_pos hvo]
      constructor
      · intro h
        obtain ⟨hin, hne2⟩ := List.mem_filter.mp h
        obtain ⟨p, hp, h1, h2⟩ := (hs v hv rid2).mp hin
        exact ⟨p, hp, h1, by simpa using hne2, h2⟩
      · rintro ⟨p, hp, h1, hne2, h2⟩
        exact List.mem_filter.mpr
          ⟨(hs v hv rid2).mpr ⟨p, hp, h1, h2⟩, by simpa using hne2⟩
    · rw [if_neg hvo]
      constructor
      · intro h
        obtain ⟨p, hp, h1, h2⟩ := (hs v hv rid2).mp h
        refine ⟨p, hp, h1, ?_, h2⟩
        intro hr
        have hpv : p.2 = row := mem_row_unique hndr hrowmem hp (h1.trans hr)
        rw [hpv] at h2
        exact hvo (by rw [pyEq_symm] at h2; exact h2)
      · rintro ⟨p, hp, h1, _, h2⟩
        exact (hs v hv rid2).mpr ⟨p, hp, h1, h2⟩
  by_cases hnn : rowGet updatedRow cn = Value.null
  · -- the new value is NULL: the update is the delete alone
    have hupd : idx.update (rowGet row cn) (rowGet updatedRow cn) rid
        = (idx.delete (rowGet row cn) rid, true) := by
      unfold Index.update
      rw [hnn, insert_null]
    rw [hupd]
    refine ⟨rfl, hdelwf, ?_⟩
    intro v hv rid2
    rw [hdel v hv rid2]
    constructor
    · rintro ⟨p, hp, h1, hne2, h2⟩
      exact ⟨p, (hmemiff p).mpr (Or.inl ⟨hp, fun he => hne2 (h1 ▸ he ▸ rfl)⟩), h1, h2⟩
    · rintro ⟨p, hp, h1, h2⟩
      rcases (hmemiff p).mp hp with ⟨h3, h4⟩ | h3
      · exact ⟨p, h3, h1, fun he => h4 (h1.trans he), h2⟩
      · exfalso
        rw [h3] at h2
        simp only at h2
        rw [hnn] at h2
        rw [pyEq_symm] at h2
        exact hv (pyEq_null_iff.mp h2)
  · -- the new value is present: empty set, then insert the fresh row-id
    have hdelempty : (idx.delete (rowGet row cn) rid).search (rowGet updatedRow cn)
        = [] := by
      rw [hdsearch]
      rw [if_neg (by rw [pyEq_symm]; simp [hne])]
      exact hempty hnn
    have hupd : idx.update (rowGet row cn) (rowGet updatedRow cn) rid
        = (((idx.delete (rowGet row cn) rid).insert (rowGet updatedRow cn) rid).1,
           true) := by
      unfold Index.update
      rw [insert_of_empty hnn hdelempty]
    rw [hupd]
    refine ⟨rfl, IndexWF_insert_of_empty hdelwf hnn hdelempty, ?_⟩
    intro v hv rid2
    rw [search_insert_of_empty hnn hdelempty]
    by_cases hvn : pyEq v (rowGet updatedRow cn) = true
    · rw [if_pos hvn]
      constructor
      · intro h
        simp only [List.mem_singleton] at h
        refine ⟨(rid, updatedRow), (hmemiff _).mpr (Or.inr rfl), by rw [h], ?_⟩
        simp only
        rw [pyEq_symm]
        exact hvn
      · rintro ⟨p, hp, h1, h2⟩
        rcases (hmemiff p).mp hp with ⟨h3, h4⟩ | h3
        · exfalso
          have h5 : pyEq (rowGet p.2 cn) (rowGet updatedRow cn) = true :=
            pyEq_trans h2 hvn
          have h6 := (hs (rowGet updatedRow cn) hnn p.1).mpr ⟨p, h3, rfl, h5⟩
          have h7 : p.1 ∈ (idx.search (rowGet updatedRow cn)).filter
              (fun r => decide (r ≠ rid)) :=
            List.mem_filter.mpr ⟨h6, by simp [h4]⟩
          rw [hfilter hnn] at h7
          simp at h7
        · rw [← h1, h3]
          simp
    · rw [if_neg hvn]
      rw [hdel v hv rid2]
      constructor
      · rintro ⟨p, hp, h1, hne2, h2⟩
        exact ⟨p, (hmemiff p).mpr (Or.inl ⟨hp, fun he => hne2 (h1 ▸ he ▸ rfl)⟩), h1, h2⟩
      · rintro ⟨p, hp, h1, h2⟩
        rcases (hmemiff p).mp hp with ⟨h3, h4⟩ | h3
        · exact ⟨p, h3, h1, fun he => h4 (h1.trans he), h2⟩
        · exfalso
          rw [h3] at h2
          simp only at h2
          rw [pyEq_symm] at h2
          exact hvn h2

theorem updateIndexLoop_ok {oldRow newRow : Row} {rid : Nat} :
    ∀ {idxs : List (String × Index)},
      (∀ p ∈ idxs, pyEq (rowGet oldRow p.1) (rowGet newRow p.1) = true ∨
        ((p.2).update (rowGet oldRow p.1) (rowGet newRow p.1) rid).2 = true) →
      updateIndexLoop oldRow newRow rid idxs
        = (idxs.map (fun p => (p.1,
            if pyEq (rowGet oldRow p.1) (rowGet newRow p.1) then p.2
            else ((p.2).update (rowGet oldRow p.1) (rowGet newRow p.1) rid).1)),
           none)
  | [], _ => rfl
  | (cn, idx) :: rest, h => by
    have hrec := updateIndexLoop_ok (fun q hq => h q (List.mem_cons_of_mem _ hq))
    cases hc : pyEq (rowGet oldRow cn) (rowGet newRow cn) with
    | true =>
      simp only [updateIndexLoop]
      rw [if_pos hc, hrec]
      simp [hc]
    | false =>
      have hu : (idx.update (rowGet oldRow cn) (rowGet newRow cn) rid).2 = true := by
        rcases h (cn, idx) (List.mem_cons_self _ _) with h2 | h2
        · rw [hc] at h2; exact Bool.noConfusion h2
        · exact h2
      simp only [updateIndexLoop]
      rw [if_neg (by simp [hc]), if_pos hu, hrec]
      simp [hc]

/-- One committed row of `_execute_update` preserves table
well-formedness (and the defensive index-loop failure is unreachable). -/
theorem updateOneRow_inv {t : Table} {setList : List (String × Value)} {rid : Nat}
    (hwf : TableWF t) : TableWF (updateOneRow t setList rid).1 := by
  obtain ⟨hndr, hlt, hpos, hndi, hprops, horigin, hcolidx, hpk⟩ := hwf
  unfold updateOneRow
  cases hlk : alookup natEq rid t.rows with
  | none => exact ⟨hndr, hlt, hpos, hndi, hprops, horigin, hcolidx, hpk⟩
  | some row =>
    dsimp only
    cases happ : applySetClause t.schema row setList with
    | error e => exact ⟨hndr, hlt, hpos, hndi, hprops, horigin, hcolidx, hpk⟩
    | ok updatedRow =>
      dsimp only
      cases hcc : checkConstraints t updatedRow (some rid) with
      | error e => exact ⟨hndr, hlt, hpos, hndi, hprops, horigin, hcolidx, hpk⟩
      | ok u =>
        cases u
        have hrowmem : (rid, row) ∈ t.rows :=
          (alookup_strict_iff_mem (fun a b => natEq_iff) isEqv_natEq hndr).mp hlk
        have hccspec := fun col hmem => checkConstraintsCols_ok hcc col hmem
        -- the per-index filter fact from the constraint check
        have hfilter : ∀ p ∈ t.indexes, rowGet updatedRow p.1 ≠ Value.null →
            ((p.2).search (rowGet updatedRow p.1)).filter
              (fun r => decide (r ≠ rid)) = [] := by
          intro p hp hnn
          obtain ⟨col, hcolmem, hname, hflags⟩ := horigin p hp
          obtain ⟨idx2, hl2, hs2⟩ :=
            (hccspec col hcolmem).2 hflags (by rw [hname]; exact hnn)
          have hl3 : alookup strEq p.1 t.indexes = some p.2 :=
            (alookup_strict_iff_mem (fun a b => strEq_iff) isEqv_strEq hndi).mpr
              (by simpa using hp)
          rw [hname] at hl2
          rw [hl3] at hl2
          cases hl2
          rw [hname] at hs2
          exact hs2
        have hchanged : ∀ p ∈ t.indexes,
            pyEq (rowGet row p.1) (rowGet updatedRow p.1) = false →
            ((p.2).update (rowGet row p.1) (rowGet updatedRow p.1) rid).2 = true ∧
            IndexWF ((p.2).update (rowGet row p.1) (rowGet updatedRow p.1) rid).1 ∧
            SyncedS ((p.2).update (rowGet row p.1) (rowGet updatedRow p.1) rid).1 p.1
              (aset natEq rid updatedRow t.rows) := by
          intro p hp hne
          obtain ⟨_, hiwf, hisync⟩ := hprops p hp
          exact syncedS_update_changed hndr hiwf ((synced_iff hiwf).mp hisync)
            hrowmem hne (hfilter p hp)
        have hok : ∀ p ∈ t.indexes,
            pyEq (rowGet row p.1) (rowGet updatedRow p.1) = true ∨
            ((p.2).update (rowGet row p.1) (rowGet updatedRow p.1) rid).2 = true := by
          intro p hp
          cases hc : pyEq (rowGet row p.1) (rowGet updatedRow p.1) with
          | true => exact Or.inl rfl
          | false => exact Or.inr (hchanged p hp hc).1
        rw [updateIndexLoop_ok hok]
        dsimp only
        refine ⟨keysND_aset isEqv_natEq hndr, ?_, hpos, keysND_map_snd _ hndi,
          ?_, ?_, ?_, ?_⟩
        · intro p hp
          rcases (mem_aset_strict_iff (fun a b => natEq_iff) hndr).mp hp
            with ⟨h1, _⟩ | h1
          · exact hlt p h1
          · rw [h1]
            exact hlt (rid, row) hrowmem
        · intro q hq
          obtain ⟨p, hp, hq2⟩ := List.mem_map.mp hq
          obtain ⟨hu, hiwf, hisync⟩ := hprops p hp
          subst hq2
          cases hc : pyEq (rowGet row p.1) (rowGet updatedRow p.1) with
          | true =>
            rw [if_pos (show (true = true) from rfl)]
            refine ⟨hu, hiwf, ?_⟩
            rw [synced_iff hiwf]
            exact syncedS_update_same hndr ((synced_iff hiwf).mp hisync) hrowmem hc
          | false =>
            rw [if_neg (by simp [hc])]
            obtain ⟨_, hiwf2, hsync2⟩ := hchanged p hp hc
            refine ⟨by rw [update_fst_is_unique]; exact hu, hiwf2, ?_⟩
            rw [synced_iff hiwf2]
            exact hsync2
        · intro q hq
          obtain ⟨p, hp, hq2⟩ := List.mem_map.mp hq
          obtain ⟨col, hcolmem, hname, hflags⟩ := horigin p hp
          exact ⟨col, hcolmem, by rw [← hq2]; exact hname, hflags⟩
        · intro col hc hf
          rw [alookup_map_snd_isSome]
          exact hcolidx col hc hf
        · intro col hc hpk2 p hp
          rcases (mem_aset_strict_iff (fun a b => natEq_iff) hndr).mp hp
            with ⟨h1, _⟩ | h1
          · exact hpk col hc hpk2 p h1
          · rw [h1]
            exact (hccspec col hc).1 hpk2

theorem updateLoop_inv {setList : List (String × Value)} :
    ∀ {rids : List Nat} {t : Table} {cnt : Nat}, TableWF t →
      TableWF (updateLoop setList t rids cnt).1
  | [], t, cnt, h => h
  | rid :: rest, t, cnt, h => by
    simp only [updateLoop]
    cases hu : updateOneRow t setList rid with
    | mk t2 res =>
      have ht2 : TableWF t2 := by
        have := @updateOneRow_inv t setList rid h
        rw [hu] at this
        exact this
      cases res with
      | error e => exact ht2
      | ok u => exact updateLoop_inv ht2

/-- `_execute_update` preserves the registry invariant. -/
theorem execUpdate_inv {db : DB} {name : String}
    {setList : List (String × Value)} {whereC : Option (List Condition)}
    (hinv : DBInv db) : DBInv (execUpdate db name setList whereC).1 := by
  obtain ⟨hndt, htwf⟩ := hinv
  unfold execUpdate
  cases hlk : alookup strEq name db.tables with
  | none => exact ⟨hndt, htwf⟩
  | some t =>
    have ht : TableWF t := by
      obtain ⟨k0, hk0, _⟩ := alookup_mem hlk
      exact htwf (k0, t) hk0
    dsimp only
    have hloop := @updateLoop_inv setList
      ((applyWhereClause t.indexes t.rows whereC).map Prod.fst) t 0 ht
    cases hres : (updateLoop setList t
        ((applyWhereClause t.indexes t.rows whereC).map Prod.fst) 0).2.2 with
    | some e =>
      refine ⟨keysND_aset isEqv_strEq hndt, ?_⟩
      intro q hq
      rcases (mem_aset_strict_iff (fun a b => strEq_iff) hndt).mp hq with ⟨h1, _⟩ | h1
      · exact htwf q h1
      · rw [h1]
        exact hloop
    | none =>
      refine ⟨keysND_aset isEqv_strEq hndt, ?_⟩
      intro q hq
      rcases (mem_aset_strict_iff (fun a b => strEq_iff) hndt).mp hq with ⟨h1, _⟩ | h1
      · exact htwf q h1
      · rw [h1]
        exact hloop

theorem deleteIndexes_eq_map {row : Row} {rid : Nat} :
    ∀ (idxs : List (String × Index)),
      deleteIndexes row rid idxs
        = idxs.map (fun p => (p.1, (p.2).delete (rowGet row p.1) rid))
  | [] => rfl
  | (cn, idx) :: rest => by
    simp only [deleteIndexes, List.map_cons]
    rw [deleteIndexes_eq_map rest]

/-- Deleting a row keeps each of its table's indexes in sync with the
shrunken row store. -/
theorem syncedS_delete_row {idx : Index} {cn : String} {rows : List (Nat × Row)}
    {row : Row} {rid : Nat}
    (hndr : keysND natEq rows)
    (hiwf : IndexWF idx)
    (hs : SyncedS idx cn rows)
    (hrowmem : (rid, row) ∈ rows) :
    SyncedS (idx.delete (rowGet row cn) rid) cn (aerase natEq rid rows) := by
  have hdsearch := @search_delete idx (rowGet row cn) rid hiwf.1
  intro v hv rid2
  rw [hdsearch v]
  have hmemiff : ∀ q : Nat × Row, q ∈ aerase natEq rid rows ↔
      (q ∈ rows ∧ q.1 ≠ rid) :=
    fun q => mem_aerase_strict_iff (fun a b => natEq_iff) hndr
  by_cases hvo : pyEq v (rowGet row cn) = true
  · rw [if_pos hvo]
    constructor
    · intro h
      obtain ⟨hin, hne2⟩ := List.mem_filter.mp h
      obtain ⟨p, hp, h1, h2⟩ := (hs v hv rid2).mp hin
      refine ⟨p, (hmemiff p).mpr ⟨hp, ?_⟩, h1, h2⟩
      intro he
      have : rid2 = rid := h1 ▸ he ▸ rfl
      simp [this] at hne2
    · rintro ⟨p, hp, h1, h2⟩
      obtain ⟨h3, h4⟩ := (hmemiff p).mp hp
      refine List.mem_filter.mpr ⟨(hs v hv rid2).mpr ⟨p, h3, h1, h2⟩, ?_⟩
      simp only [decide_eq_true_eq]
      intro he
      exact h4 (h1.trans he)
  · rw [if_neg hvo]
    constructor
    · intro h
      obtain ⟨p, hp, h1, h2⟩ := (hs v hv rid2).mp h
      refine ⟨p, (hmemiff p).mpr ⟨hp, ?_⟩, h1, h2⟩
      intro he
      have hpv : p.2 = row := mem_row_unique hndr hrowmem hp he
      rw [hpv] at h2
      rw [pyEq_symm] at h2
      exact hvo h2
    · rintro ⟨p, hp, h1, h2⟩
      obtain ⟨h3, _⟩ := (hmemiff p).mp hp
      exact (hs v hv rid2).mpr ⟨p, h3, h1, h2⟩

/-- One committed deletion of `_execute_delete` preserves table
well-formedness. -/
theorem tableWF_deleteOne {t : Table} {rid : Nat} {row : Row}
    (hwf : TableWF t) (hlk : alookup natEq rid t.rows = some row) :
    TableWF (Table.mk t.schema (aerase natEq rid t.rows)
      (deleteIndexes row rid t.indexes) t.next_row_id) := by
  obtain ⟨hndr, hlt, hpos, hndi, hprops, horigin, hcolidx, hpk⟩ := hwf
  have hrowmem : (rid, row) ∈ t.rows :=
    (alookup_strict_iff_mem (fun a b => natEq_iff) isEqv_natEq hndr).mp hlk
  rw [deleteIndexes_eq_map]
  refine ⟨keysND_aerase hndr, ?_, hpos, keysND_map_snd _ hndi, ?_, ?_, ?_, ?_⟩
  · intro p hp
    exact hlt p ((mem_aerase_strict_iff (fun a b => natEq_iff) hndr).mp hp).1
  · intro q hq
    obtain ⟨p, hp, hq2⟩ := List.mem_map.mp hq
    obtain ⟨hu, hiwf, hisync⟩ := hprops p hp
    subst hq2
    refine ⟨by rw [delete_is_unique]; exact hu, IndexWF_delete hiwf, ?_⟩
    rw [synced_iff (IndexWF_delete hiwf)]
    exact syncedS_delete_row hndr hiwf ((synced_iff hiwf).mp hisync) hrowmem
  · intro q hq
    obtain ⟨p, hp, hq2⟩ := List.mem_map.mp hq
    obtain ⟨col, hcolmem, hname, hflags⟩ := horigin p hp
    exact ⟨col, hcolmem, by rw [← hq2]; exact hname, hflags⟩
  · intro col hc hf
    rw [alookup_map_snd_isSome]
    exact hcolidx col hc hf
  · intro col hc hpk2 p hp
    exact hpk col hc hpk2 p
      ((mem_aerase_strict_iff (fun a b => natEq_iff) hndr).mp hp).1

theorem deleteLoop_inv :
    ∀ {rids : List Nat} {t : Table} {cnt : Nat}, TableWF t →
      TableWF (deleteLoop t rids cnt).1
  | [], t, cnt, h => h
  | rid :: rest, t, cnt, h => by
    simp only [deleteLoop]
    cases hlk : alookup natEq rid t.rows with
    | none => exact h
    | some row => exact deleteLoop_inv (tableWF_deleteOne h hlk)

/-- `_execute_delete` preserves the registry invariant. -/
theorem execDelete_inv {db : DB} {name : String}
    {whereC : Option (List Condition)}
    (hinv : DBInv db) : DBInv (execDelete db name whereC).1 := by
  obtain ⟨hndt, htwf⟩ := hinv
  unfold execDelete
  cases hlk : alookup strEq name db.tables with
  | none => exact ⟨hndt, htwf⟩
  | some t =>
    have ht : TableWF t := by
      obtain ⟨k0, hk0, _⟩ := alookup_mem hlk
      exact htwf (k0, t) hk0
    dsimp only
    have hloop := @deleteLoop_inv
      ((applyWhereClause t.indexes t.rows whereC).map Prod.fst) t 0 ht
    cases hres : (deleteLoop t
        ((applyWhereClause t.indexes t.rows whereC).map Prod.fst) 0).2.2 with
    | some e =>
      refine ⟨keysND_aset isEqv_strEq hndt, ?_⟩
      intro q hq
      rcases (mem_aset_strict_iff (fun a b => strEq_iff) hndt).mp hq with ⟨h1, _⟩ | h1
      · exact htwf q h1
      · rw [h1]
        exact hloop
    | none =>
      refine ⟨keysND_aset isEqv_strEq hndt, ?_⟩
      intro q hq
      rcases (mem_aset_strict_iff (fun a b => strEq_iff) hndt).mp hq with ⟨h1, _⟩ | h1
      · exact htwf q h1
      · rw [h1]
        exact hloop

/-- `_execute_insert` preserves the registry invariant. -/
theorem execInsert_inv {db : DB} {name : String} {cols : Option (List String)}
    {values : List Value}
    (hinv : DBInv db) : DBInv (execInsert db name cols values).1 := by
  unfold execInsert
  cases hlk : alookup strEq name db.tables with
  | none => exact hinv
  | some t =>
    have ht : TableWF t := by
      obtain ⟨k0, hk0, _⟩ := alookup_mem hlk
      exact hinv.2 (k0, t) hk0
    dsimp only
    exact execInsertRow_inv hinv ht

/-- Every `execute` call preserves the registry invariant, including
failing ones. -/
theorem execStmt_inv {db : DB} (s : Stmt)
    (hinv : DBInv db) : DBInv (execStmt db s).1 := by
  cases s with
  | create n cds => exact execCreateTable_inv hinv
  | insert n cs vs => exact execInsert_inv hinv
  | select n cols w j =>
    simp only [execStmt]
    cases execSelect db n cols w j with
    | error e => exact hinv
    | ok p => exact hinv
  | update n sl w => exact execUpdate_inv hinv
  | delete n w => exact execDelete_inv hinv

/-- The registry invariant holds in every reachable engine state. -/
theorem reachable_inv : ∀ {db : DB}, Reachable db → DBInv db
  | _, Reachable.init => ⟨List.Pairwise.nil, fun p hp => absurd hp (List.not_mem_nil p)⟩
  | _, Reachable.step db s h => execStmt_inv s (reachable_inv h)

/-! ## Claims -/

/-- Claim C1: the spec says a column whose constraint token sequence
contains `PRIMARY KEY` is marked primary.  The parser whitespace-splits
the constraints of `id INT PRIMARY KEY` into the two tokens
`["PRIMARY", "KEY"]`, but the executor tests Python *list membership* of
the single string `"PRIMARY KEY"`, which no whitespace-split token can
ever equal — so the column is created with `is_primary = false` (and
`is_unique = false`, hence no index), and reconstruction from the
persisted descriptor at load gives the same marking.  The `UNIQUE`
marking, a one-word token, works. -/
theorem c1_primary_key_never_marked :
    parseCreateColumns "id INT PRIMARY KEY" =
      Except.ok [ColDef.mk "id" "INT" ["PRIMARY", "KEY"]] ∧
    mkColumn (ColDef.mk "id" "INT" ["PRIMARY", "KEY"]) =
      Except.ok (Column.mk "id" DataType.INT false false) ∧
    mkColumnFromSchema (SchemaCol.mk "id" "INT" ["PRIMARY", "KEY"]) =
      Except.ok (Column.mk "id" DataType.INT false false) ∧
    mkColumn (ColDef.mk "email" "TEXT" ["UNIQUE"]) =
      Except.ok (Column.mk "email" DataType.TEXT false true) := by
  refine ⟨by decide, by decide, by decide, by decide⟩

/-- Claim C6: the spec says `<column> != <value>` parses to a condition
with that column, operator `!=` and that value.  But `_parse_where_clause`
tests `'=' in cond` first, and every term containing `!=` contains `=`,
so `id != 5` is split at the first `=` into column `"id !"` with operator
`=` — the `!=` branch is dead code.  The executor consequently treats the
term as an equality test on the non-existent column `"id !"` (never
matching the non-null value), where the claimed condition would have
matched a row with `id = 7`. -/
theorem c6_bang_eq_parsed_as_equality :
    parseWhereClause "id != 5" = [Condition.mk "id !" "=" (Value.int 5)] ∧
    condMatches [("id", Value.int 7)] (Condition.mk "id !" "=" (Value.int 5)) = false ∧
    condMatches [("id", Value.int 7)] (Condition.mk "id" "!=" (Value.int 5)) = true := by
  refine ⟨by decide, by decide, by decide⟩

/-- Claim C9 counterexample: a WHERE term matching neither
`<column> = <value>` nor `<column> != <value>` does NOT make parsing fail:
`id > 5` yields an empty condition list, and the statement then runs as
if the WHERE clause were absent — a row with `id = 3` (which violates
`id > 5` under any reading) is returned. -/
theorem c9_counterexample :
    parseWhereClause "id > 5" = ([] : List Condition) ∧
    applyWhereClause [] [(1, [("id", Value.int 3)])] (some (parseWhereClause "id > 5"))
      = [(1, [("id", Value.int 3)])] := by
  refine ⟨by decide, by decide⟩

/-- Claim C9 amended: a WHERE clause all of whose terms match neither
condition form parses (without error) to the empty condition list, and
Select/Update/Delete then filter with it as if the WHERE clause were
absent: every row is kept. -/
theorem c9_amended_malformed_terms_ignored (s : String)
    (h : ∀ c ∈ splitByCommas s, isSubstr "=" c = false ∧ isSubstr "!=" c = false) :
    parseWhereClause s = [] ∧
    (∀ (indexes : List (String × Index)) (rows : List (Nat × Row)),
      applyWhereClause indexes rows (some (parseWhereClause s)) = rows) := by
  have hempty : parseWhereClause s = [] := by
    unfold parseWhereClause
    revert h
    generalize splitByCommas s = l
    intro h
    induction l with
    | nil => rfl
    | cons c rest ih =>
      have hc := h c (List.mem_cons_self _ _)
      simp only [List.foldl_cons]
      rw [if_neg (by simp [hc.1]), if_neg (by simp [hc.2])]
      exact ih (fun c2 hc2 => h c2 (List.mem_cons_of_mem _ hc2))
  refine ⟨hempty, fun indexes rows => ?_⟩
  rw [hempty]
  rfl

/-- Claim C9 witness for the amended statement, at the malformed term
`id > 5`. -/
theorem c9_amended_witness :
    parseWhereClause "id > 5" = [] ∧
    applyWhereClause [("id", Index.mk "id" true [])] [(1, [("id", Value.int 3)])]
      (some (parseWhereClause "id > 5")) = [(1, [("id", Value.int 3)])] := by
  have h := c9_amended_malformed_terms_ignored "id > 5" (by decide)
  exact ⟨h.1, h.2 [("id", Index.mk "id" true [])] [(1, [("id", Value.int 3)])]⟩

/-- Claim C4 counterexample: in the reachable state `nullRowDb` the unique
column `e` is indexed and row 1 holds NULL in `e`; for the condition
`e = NULL`, the index-lookup path returns no rows (NULL is never indexed)
while a full scan with the same single condition returns row 1
(`None == None` holds in the scan). -/
theorem c4_counterexample :
    (alookup strEq "t" nullRowDb.tables).map Table.rows
      = some [(1, [("a", Value.int 1), ("e", Value.null)])] ∧
    (alookup strEq "t" nullRowDb.tables).map Table.indexes
      = some [("e", Index.mk "e" true [])] ∧
    applyWhereClause [("e", Index.mk "e" true [])]
      [(1, [("a", Value.int 1), ("e", Value.null)])]
      (some [Condition.mk "e" "=" Value.null]) = [] ∧
    fullScan [(1, [("a", Value.int 1), ("e", Value.null)])]
      [Condition.mk "e" "=" Value.null]
      = [(1, [("a", Value.int 1), ("e", Value.null)])] := by
  refine ⟨by decide, by decide, by decide, by decide⟩

/-- Claim C4 amended: for every NON-NULL condition value on an indexed
column whose index is well-formed and in sync with the rows, the
index-lookup path of `_apply_where_clause` and a full scan with that same
single equality condition produce the same row set.  (For a NULL value
the two differ, see the counterexample.) -/
theorem c4_index_path_eq_full_scan {indexes : List (String × Index)}
    {rows : List (Nat × Row)} {cn : String} {idx : Index} {v : Value}
    (hnd : keysND natEq rows)
    (hidx : alookup strEq cn indexes = some idx)
    (hwf : IndexWF idx)
    (hsync : IndexSynced idx cn rows)
    (hv : v ≠ Value.null) (p : Nat × Row) :
    p ∈ applyWhereClause indexes rows (some [Condition.mk cn "=" v]) ↔
    p ∈ fullScan rows [Condition.mk cn "=" v] := by
  have hs := (synced_iff hwf).mp hsync
  have hform : applyWhereClause indexes rows (some [Condition.mk cn "=" v])
      = (idx.search v).filterMap
          (fun rid => (alookup natEq rid rows).map (fun row => (rid, row))) := by
    unfold applyWhereClause findIndexedEq
    simp [hidx]
  have hcond : ∀ row : Row, condMatches row (Condition.mk cn "=" v)
      = pyEq (rowGet row cn) v := by
    intro row
    unfold condMatches
    simp
  rw [hform]
  unfold fullScan
  constructor
  · intro hp
    obtain ⟨rid, hrid, hmap⟩ := List.mem_filterMap.mp hp
    obtain ⟨row, hlook, heq⟩ := Option.map_eq_some'.mp hmap
    obtain ⟨q, hqmem, hqid, hqv⟩ := (hs v hv rid).mp hrid
    have hrowmem : (rid, row) ∈ rows :=
      (alookup_strict_iff_mem (fun a b => natEq_iff) isEqv_natEq hnd).mp hlook
    have hq2 : q.2 = row := by
      have : (rid, q.2) ∈ rows := by
        have := hqmem
        rw [← hqid]
        simpa using hqmem
      exact mem_unique_of_keysND (fun a b => natEq_iff) isEqv_natEq hnd this hrowmem
    rw [← heq]
    refine List.mem_filter.mpr ⟨hrowmem, ?_⟩
    simp only [List.all_cons, List.all_nil, Bool.and_true]
    rw [hcond]
    rw [← hq2]
    exact hqv
  · intro hp
    obtain ⟨hmem, hall⟩ := List.mem_filter.mp hp
    simp only [List.all_cons, List.all_nil, Bool.and_true] at hall
    rw [hcond] at hall
    have hsearch : p.1 ∈ idx.search v :=
      (hs v hv p.1).mpr ⟨p, hmem, rfl, hall⟩
    refine List.mem_filterMap.mpr ⟨p.1, hsearch, ?_⟩
    have hlook : alookup natEq p.1 rows = some p.2 :=
      (alookup_strict_iff_mem (fun a b => natEq_iff) isEqv_natEq hnd).mpr (by simpa using hmem)
    rw [hlook]
    rfl

/-- Claim C4 witness: the amended equivalence at a concrete one-row table
with the value `'x'` on the indexed unique column `e`. -/
theorem c4_witness :
    (1, [("e", Value.str "x")]) ∈
      applyWhereClause [("e", Index.mk "e" true [(Value.str "x", [1])])]
        [(1, [("e", Value.str "x")])]
        (some [Condition.mk "e" "=" (Value.str "x")]) ↔
    (1, [("e", Value.str "x")]) ∈
      fullScan [(1, [("e", Value.str "x")])]
        [Condition.mk "e" "=" (Value.str "x")] :=
  @c4_index_path_eq_full_scan [("e", Index.mk "e" true [(Value.str "x", [1])])]
    [(1, [("e", Value.str "x")])] "e" (Index.mk "e" true [(Value.str "x", [1])])
    (Value.str "x") (by decide) (by decide) (by decide) (by decide)
    (by decide) (1, [("e", Value.str "x")])

/-- If no primary column of `cols` is null in `row`, every flagged column
has an index, and some flagged column's non-null value is already present
in its index under a row-id other than the excluded one, then the
constraint check fails with a duplicate-value error. -/
theorem checkConstraintsCols_dup {indexes : List (String × Index)} {row : Row}
    {ex : Option Nat} :
    ∀ {cols : List Column},
    (∀ col ∈ cols, col.is_primary = true → rowGet row col.name ≠ Value.null) →
    (∀ col ∈ cols, (col.is_primary = true ∨ col.is_unique = true) →
      (alookup strEq col.name indexes).isSome = true) →
    (∃ col ∈ cols, ∃ idx,
      (col.is_primary = true ∨ col.is_unique = true) ∧
      rowGet row col.name ≠ Value.null ∧
      alookup strEq col.name indexes = some idx ∧
      (match ex with
       | some e => (idx.search (rowGet row col.name)).filter (fun r => decide (r ≠ e))
       | none => idx.search (rowGet row col.name)) ≠ []) →
    ∃ c2 v2, checkConstraintsCols indexes row ex cols
      = Except.error (ExecErr.duplicateValue c2 v2)
  | [], _, _, hdup => by
      obtain ⟨col, hmem, _⟩ := hdup
      simp at hmem
  | col :: rest, hnopk, hidxs, hdup => by
    have hb1 : ¬ (col.is_primary = true ∧ rowGet row col.name = Value.null) := by
      rintro ⟨hp, hnull⟩
      exact hnopk col (List.mem_cons_self _ _) hp hnull
    by_cases hb2 : (col.is_primary = true ∨ col.is_unique = true) ∧
        rowGet row col.name ≠ Value.null
    · have hsome := hidxs col (List.mem_cons_self _ _) hb2.1
      obtain ⟨idx, heq⟩ := Option.isSome_iff_exists.mp hsome
      by_cases hhv : idx.has_value (rowGet row col.name) = true
      · by_cases hrem : (match ex with
            | some e => (idx.search (rowGet row col.name)).filter (fun r => decide (r ≠ e))
            | none => idx.search (rowGet row col.name)) = []
        · -- this column passes; the duplicate must be in the tail
          have hstep : checkConstraintsCols indexes row ex (col :: rest)
              = checkConstraintsCols indexes row ex rest := by
            simp only [checkConstraintsCols]
            rw [if_neg hb1, if_pos hb2, heq]
            dsimp only
            rw [if_pos hhv]
            rw [if_pos (List.isEmpty_iff.mpr hrem)]
          rw [hstep]
          refine checkConstraintsCols_dup
            (fun c2 h2 => hnopk c2 (List.mem_cons_of_mem _ h2))
            (fun c2 h2 => hidxs c2 (List.mem_cons_of_mem _ h2)) ?_
          obtain ⟨c0, hmem0, idx0, hflag0, hnn0, heq0, hrem0⟩ := hdup
          rcases List.mem_cons.mp hmem0 with h0 | h0
          · subst h0
            rw [heq0] at heq
            cases heq
            exact absurd hrem hrem0
          · exact ⟨c0, h0, idx0, hflag0, hnn0, heq0, hrem0⟩
        · -- the duplicate fires here
          refine ⟨col.name, rowGet row col.name, ?_⟩
          simp only [checkConstraintsCols]
          rw [if_neg hb1, if_pos hb2, heq]
          dsimp only
          rw [if_pos hhv]
          rw [if_neg (fun hcontra => hrem (List.isEmpty_iff.mp hcontra))]
      · -- value not in the index: this column passes
        have hsearch : idx.search (rowGet row col.name) = [] := by
          unfold Index.has_value at hhv
          unfold Index.search
          cases hl : alookup pyEq (rowGet row col.name) idx.entries with
          | none => rfl
          | some ids => rw [hl] at hhv; simp at hhv
        have hstep : checkConstraintsCols indexes row ex (col :: rest)
            = checkConstraintsCols indexes row ex rest := by
          simp only [checkConstraintsCols]
          rw [if_neg hb1, if_pos hb2, heq]
          dsimp only
          rw [if_neg hhv]
        rw [hstep]
        refine checkConstraintsCols_dup
          (fun c2 h2 => hnopk c2 (List.mem_cons_of_mem _ h2))
          (fun c2 h2 => hidxs c2 (List.mem_cons_of_mem _ h2)) ?_
        obtain ⟨c0, hmem0, idx0, hflag0, hnn0, heq0, hrem0⟩ := hdup
        rcases List.mem_cons.mp hmem0 with h0 | h0
        · subst h0
          rw [heq0] at heq
          cases heq
          rw [hsearch] at hrem0
          cases ex with
          | none => exact absurd rfl hrem0
          | some e => exact absurd rfl hrem0
        · exact ⟨c0, h0, idx0, hflag0, hnn0, heq0, hrem0⟩
    · have hstep : checkConstraintsCols indexes row ex (col :: rest)
          = checkConstraintsCols indexes row ex rest := by
        conv_lhs => rw [checkConstraintsCols.eq_def]
        dsimp only
        rw [if_neg hb1, if_neg hb2]
      rw [hstep]
      refine checkConstraintsCols_dup
        (fun c2 h2 => hnopk c2 (List.mem_cons_of_mem _ h2))
        (fun c2 h2 => hidxs c2 (List.mem_cons_of_mem _ h2)) ?_
      obtain ⟨c0, hmem0, idx0, hflag0, hnn0, heq0, hrem0⟩ := hdup
      rcases List.mem_cons.mp hmem0 with h0 | h0
      · subst h0
        exact absurd ⟨hflag0, hnn0⟩ hb2
      · exact ⟨c0, h0, idx0, hflag0, hnn0, heq0, hrem0⟩

/-- Claim C7: an Update whose SET gives a unique (or primary) column a
non-null value already held (up to Python equality) by a different row
fails with a duplicate-value error raised by the shared constraint check
*before* any mutation of that iteration, so when the statement targets
exactly that row the whole table — both rows and all index entries — is
returned unchanged. -/
theorem c7_update_duplicate_fails {db : DB} {tn : String} {t : Table}
    {cn : String} {col : Column} {rid rid2 : Nat} {row1 row2 updatedRow : Row}
    {v : Value} {setList : List (String × Value)} {whereC : Option (List Condition)}
    (hdb : alookup strEq tn db.tables = some t)
    (hwf : TableWF t)
    (hcol : col ∈ t.schema) (hcn : col.name = cn)
    (hflag : col.is_primary = true ∨ col.is_unique = true)
    (hr1 : (rid, row1) ∈ t.rows) (hr2 : (rid2, row2) ∈ t.rows) (hne : rid2 ≠ rid)
    (happly : applySetClause t.schema row1 setList = Except.ok updatedRow)
    (hnew : pyEq (rowGet updatedRow cn) v = true)
    (hheld : pyEq (rowGet row2 cn) v = true)
    (hv : v ≠ Value.null)
    (hnopk : ∀ c2 ∈ t.schema, c2.is_primary = true →
      rowGet updatedRow c2.name ≠ Value.null)
    (hfilter : applyWhereClause t.indexes t.rows whereC = [(rid, row1)]) :
    ∃ c2 v2,
      updateOneRow t setList rid = (t, Except.error (ExecErr.duplicateValue c2 v2)) ∧
      execUpdate db tn setList whereC
        = (DB.mk (aset strEq tn t db.tables) db.disk,
           Except.error (ExecErr.duplicateValue c2 v2)) := by
  obtain ⟨hndrows, _, _, hndidx, hidxprops, _, hcolidx, _⟩ := hwf
  have hupdnn : rowGet updatedRow cn ≠ Value.null := pyEq_ne_null hnew hv
  have hsomeidx := hcolidx col hcol hflag
  obtain ⟨idx, heqidx⟩ := Option.isSome_iff_exists.mp hsomeidx
  have hidxmem : ∃ k0, (k0, idx) ∈ t.indexes ∧ strEq col.name k0 = true :=
    alookup_mem heqidx
  obtain ⟨k0, hk0mem, hk0eq⟩ := hidxmem
  have hk0 : k0 = col.name := (strEq_iff.mp hk0eq).symm
  subst hk0
  obtain ⟨_, hiwf, hisync⟩ := hidxprops (col.name, idx) hk0mem
  have hs := (synced_iff hiwf).mp hisync
  -- rid2 is in the index under the tentative new value
  have hrow2v : pyEq (rowGet row2 cn) (rowGet updatedRow cn) = true :=
    pyEq_trans hheld (by rw [pyEq_symm]; exact hnew)
  have hrid2 : rid2 ∈ idx.search (rowGet updatedRow col.name) := by
    rw [hcn]
    exact (hs (rowGet updatedRow cn) hupdnn rid2).mpr
      ⟨(rid2, row2), hr2, rfl, by rw [hcn]; exact hrow2v⟩
  have hcc : ∃ c2 v2, checkConstraintsCols t.indexes updatedRow (some rid) t.schema
      = Except.error (ExecErr.duplicateValue c2 v2) := by
    refine checkConstraintsCols_dup hnopk hcolidx ?_
    refine ⟨col, hcol, idx, hflag, by rw [hcn]; exact hupdnn, heqidx, ?_⟩
    intro hempty
    have hempty2 : (idx.search (rowGet updatedRow col.name)).filter
        (fun r => decide (r ≠ rid)) = [] := hempty
    have hmem2 : rid2 ∈ (idx.search (rowGet updatedRow col.name)).filter
        (fun r => decide (r ≠ rid)) :=
      List.mem_filter.mpr ⟨hrid2, by simp [hne]⟩
    rw [hempty2] at hmem2
    simp at hmem2
  obtain ⟨c2, v2, hccerr⟩ := hcc
  have h2 : updateOneRow t setList rid
      = (t, Except.error (ExecErr.duplicateValue c2 v2)) := by
    unfold updateOneRow
    rw [(alookup_strict_iff_mem (fun a b => natEq_iff) isEqv_natEq hndrows).mpr hr1]
    dsimp only
    rw [happly]
    dsimp only
    unfold checkConstraints
    rw [hccerr]
  refine ⟨c2, v2, h2, ?_⟩
  unfold execUpdate
  rw [hdb]
  dsimp only
  rw [hfilter]
  have h1 : updateLoop setList t [rid] 0 = (t, 0, some (ExecErr.duplicateValue c2 v2)) := by
    unfold updateLoop
    rw [h2]
  simp only [List.map_cons, List.map_nil]
  rw [h1]

/-- Claim C7 witness: in `twoRowDb` (rows 1 and 2 with distinct emails on
the unique column `email`), `UPDATE users SET email = 'a@x.com' WHERE
id = 2` fails with a duplicate-value error and leaves the whole table
unchanged. -/
theorem c7_witness :
    ∃ c2 v2,
      updateOneRow
        (Table.mk
          [Column.mk "id" DataType.INT false false,
           Column.mk "email" DataType.TEXT false true]
          [(1, [("id", Value.int 1), ("email", Value.str "a@x.com")]),
           (2, [("id", Value.int 2), ("email", Value.str "b@x.com")])]
          [("email", Index.mk "email" true
            [(Value.str "a@x.com", [1]), (Value.str "b@x.com", [2])])]
          3)
        [("email", Value.str "a@x.com")] 2
        = (Table.mk
            [Column.mk "id" DataType.INT false false,
             Column.mk "email" DataType.TEXT false true]
            [(1, [("id", Value.int 1), ("email", Value.str "a@x.com")]),
             (2, [("id", Value.int 2), ("email", Value.str "b@x.com")])]
            [("email", Index.mk "email" true
              [(Value.str "a@x.com", [1]), (Value.str "b@x.com", [2])])]
            3,
           Except.error (ExecErr.duplicateValue c2 v2)) ∧
      execUpdate twoRowDb "users" [("email", Value.str "a@x.com")]
          (some [Condition.mk "id" "=" (Value.int 2)])
        = (DB.mk (aset strEq "users"
            (Table.mk
              [Column.mk "id" DataType.INT false false,
               Column.mk "email" DataType.TEXT false true]
              [(1, [("id", Value.int 1), ("email", Value.str "a@x.com")]),
               (2, [("id", Value.int 2), ("email", Value.str "b@x.com")])]
              [("email", Index.mk "email" true
                [(Value.str "a@x.com", [1]), (Value.str "b@x.com", [2])])]
              3)
            twoRowDb.tables) twoRowDb.disk,
           Except.error (ExecErr.duplicateValue c2 v2)) :=
  @c7_update_duplicate_fails twoRowDb "users"
    (Table.mk
      [Column.mk "id" DataType.INT false false,
       Column.mk "email" DataType.TEXT false true]
      [(1, [("id", Value.int 1), ("email", Value.str "a@x.com")]),
       (2, [("id", Value.int 2), ("email", Value.str "b@x.com")])]
      [("email", Index.mk "email" true
        [(Value.str "a@x.com", [1]), (Value.str "b@x.com", [2])])]
      3)
    "email" (Column.mk "email" DataType.TEXT false true)
    2 1
    [("id", Value.int 2), ("email", Value.str "b@x.com")]
    [("id", Value.int 1), ("email", Value.str "a@x.com")]
    [("id", Value.int 2), ("email", Value.str "a@x.com")]
    (Value.str "a@x.com")
    [("email", Value.str "a@x.com")]
    (some [Condition.mk "id" "=" (Value.int 2)])
    (by decide) (by decide)
    (by decide) (by decide) (by decide)
    (by decide) (by decide) (by decide)
    (by decide) (by decide) (by decide) (by decide)
    (by decide) (by decide)

theorem foldl_append_form {α β : Type} (g : α → List β) :
    ∀ (l : List α) (acc : List β),
      List.foldl (fun res x => res ++ g x) acc l = acc ++ l.flatMap g
  | [], acc => by simp
  | x :: rest, acc => by
    simp only [List.foldl_cons, List.flatMap_cons]
    rw [foldl_append_form g rest (acc ++ g x)]
    simp

theorem filterMap_ite {α β : Type} (p : α → Bool) (m : α → β) :
    ∀ l : List α,
      l.filterMap (fun a => if p a then some (m a) else none) = (l.filter p).map m
  | [] => rfl
  | x :: rest => by
    by_cases h : p x <;>
      simp [List.filterMap_cons, List.filter_cons, h, filterMap_ite p m rest]

theorem filterMap_eq_map_of_forall {α β : Type} {F : α → Option β} {G : α → β} :
    ∀ {l : List α}, (∀ a ∈ l, F a = some (G a)) → l.filterMap F = l.map G
  | [], _ => rfl
  | x :: rest, h => by
    simp only [List.filterMap_cons, h x (List.mem_cons_self _ _), List.map_cons]
    rw [filterMap_eq_map_of_forall (fun a ha => h a (List.mem_cons_of_mem _ ha))]

theorem flatMap_perm {α β : Type} {f g : α → List β} :
    ∀ {l : List α}, (∀ x ∈ l, List.Perm (f x) (g x)) →
      List.Perm (l.flatMap f) (l.flatMap g)
  | [], _ => List.Perm.refl _
  | x :: rest, h => by
    simp only [List.flatMap_cons]
    exact (h x (List.mem_cons_self _ _)).append
      (flatMap_perm (fun y hy => h y (List.mem_cons_of_mem _ hy)))

theorem search_nodup {idx : Index} (hwf : IndexWF idx) (v : Value) :
    (idx.search v).Nodup := by
  unfold Index.search
  cases hl : alookup pyEq v idx.entries with
  | none => simp
  | some ids =>
    obtain ⟨k0, hk0, _⟩ := alookup_mem hl
    exact (hwf.2.1 (k0, ids) hk0).2

theorem nodup_fst_of_keysND {α : Type} {l : List (Nat × α)} (hnd : keysND natEq l) :
    (l.map Prod.fst).Nodup := by
  have hp : List.Pairwise (fun a b : Nat => a ≠ b) (l.map Prod.fst) := by
    rw [List.pairwise_map]
    refine hnd.imp ?_
    intro p q h heq
    rw [heq] at h
    simp [natEq] at h
  exact hp

theorem rowGet_nil (cn : String) : rowGet [] cn = Value.null := rfl

theorem row_nonempty_of_get {row : Row} {cn : String}
    (h : rowGet row cn ≠ Value.null) : row.isEmpty = false := by
  cases row with
  | nil => exact absurd (rowGet_nil cn) h
  | cons p rest => rfl

/-- The per-left-row lists of the two join paths are permutations of each
other when the right index is well-formed and in sync. -/
theorem join_per_left_perm {rows : List (Nat × Row)} {idx : Index} {rcol : String}
    (hnd : keysND natEq rows) (hwf : IndexWF idx) (hs : SyncedS idx rcol rows)
    (leftName rightName : String) (lrow : Row) {lv : Value}
    (hlv : lv ≠ Value.null) :
    List.Perm
      ((idx.search lv).filterMap (fun rrid =>
        match alookup natEq rrid rows with
        | some rrow =>
          if rrow.isEmpty then none
          else some (mergeRows leftName rightName lrow rrow)
        | none => none))
      (rows.filterMap (fun rp =>
        if pyEq (rowGet rp.2 rcol) lv then
          some (mergeRows leftName rightName lrow rp.2)
        else none)) := by
  have hrow : ∀ rrid ∈ idx.search lv,
      ∃ rrow, alookup natEq rrid rows = some rrow ∧ rrow.isEmpty = false := by
    intro rrid hr
    obtain ⟨p, hp, hpid, hpv⟩ := (hs lv hlv rrid).mp hr
    refine ⟨p.2, ?_, ?_⟩
    · subst hpid
      exact (alookup_strict_iff_mem (fun a b => natEq_iff) isEqv_natEq hnd).mpr
        (by simpa using hp)
    · exact row_nonempty_of_get (pyEq_ne_null hpv hlv)
  have hA : (idx.search lv).filterMap (fun rrid =>
      match alookup natEq rrid rows with
      | some rrow =>
        if rrow.isEmpty then none
        else some (mergeRows leftName rightName lrow rrow)
      | none => none)
      = (idx.search lv).map
          (fun rrid => mergeRows leftName rightName lrow
            ((alookup natEq rrid rows).getD [])) := by
    refine filterMap_eq_map_of_forall ?_
    intro rrid hr
    obtain ⟨rrow, hlk, hne⟩ := hrow rrid hr
    rw [hlk]
    simp [hne]
  have hB : rows.filterMap (fun rp =>
      if pyEq (rowGet rp.2 rcol) lv then
        some (mergeRows leftName rightName lrow rp.2)
      else none)
      = (rows.filter (fun rp => pyEq (rowGet rp.2 rcol) lv)).map
          (fun rp => mergeRows leftName rightName lrow rp.2) :=
    filterMap_ite _ _ rows
  rw [hA, hB]
  have hperm : List.Perm (idx.search lv)
      ((rows.filter (fun rp => pyEq (rowGet rp.2 rcol) lv)).map Prod.fst) := by
    refine (List.perm_ext_iff_of_nodup (search_nodup hwf lv) ?_).mpr ?_
    · exact nodup_fst_of_keysND (by
        unfold keysND at hnd ⊢
        exact hnd.sublist (List.filter_sublist _))
    · intro a
      constructor
      · intro ha
        obtain ⟨p, hp, hpid, hpv⟩ := (hs lv hlv a).mp ha
        refine List.mem_map.mpr ⟨p, List.mem_filter.mpr ⟨hp, hpv⟩, hpid⟩
      · intro ha
        obtain ⟨p, hpmem, hpid⟩ := List.mem_map.mp ha
        obtain ⟨hp, hpv⟩ := List.mem_filter.mp hpmem
        exact (hs lv hlv a).mpr ⟨p, hp, hpid, hpv⟩
  have hmapped := hperm.map
    (fun rrid => mergeRows leftName rightName lrow ((alookup natEq rrid rows).getD []))
  refine hmapped.trans ?_
  rw [List.map_map]
  refine List.Perm.of_eq (List.map_congr_left ?_)
  intro rp hmem
  obtain ⟨hp, _⟩ := List.mem_filter.mp hmem
  have hlk : alookup natEq rp.1 rows = some rp.2 :=
    (alookup_strict_iff_mem (fun a b => natEq_iff) isEqv_natEq hnd).mpr
      (by simpa using hp)
  simp [Function.comp, hlk]

/-- Bind form of the index join path. -/
theorem indexLoopJoin_eq_flatMap (leftName rightName lcol : String) (idx : Index)
    (leftRows rightRows : List (Nat × Row)) :
    indexLoopJoin leftName rightName lcol idx leftRows rightRows
      = leftRows.flatMap (fun lp =>
          if rowGet lp.2 lcol = Value.null then []
          else (idx.search (rowGet lp.2 lcol)).filterMap (fun rrid =>
            match alookup natEq rrid rightRows with
            | some rrow =>
              if rrow.isEmpty then none
              else some (mergeRows leftName rightName lp.2 rrow)
            | none => none)) := by
  unfold indexLoopJoin
  rw [List.foldl_ext _
    (fun res lp => res ++
      (if rowGet lp.2 lcol = Value.null then []
       else (idx.search (rowGet lp.2 lcol)).filterMap (fun rrid =>
         match alookup natEq rrid rightRows with
         | some rrow =>
           if rrow.isEmpty then none
           else some (mergeRows leftName rightName lp.2 rrow)
         | none => none)))
    []
    (by
      intro res lp _
      by_cases h : rowGet lp.2 lcol = Value.null <;> simp [h])]
  rw [foldl_append_form]
  simp

/-- Bind form of the nested-loop join path. -/
theorem nestedLoopJoin_eq_flatMap (leftName rightName lcol rcol : String)
    (leftRows rightRows : List (Nat × Row)) :
    nestedLoopJoin leftName rightName lcol rcol leftRows rightRows
      = leftRows.flatMap (fun lp =>
          if rowGet lp.2 lcol = Value.null then []
          else rightRows.filterMap (fun rp =>
            if pyEq (rowGet rp.2 rcol) (rowGet lp.2 lcol) then
              some (mergeRows leftName rightName lp.2 rp.2)
            else none)) := by
  unfold nestedLoopJoin
  rw [List.foldl_ext _
    (fun res lp => res ++
      (if rowGet lp.2 lcol = Value.null then []
       else rightRows.filterMap (fun rp =>
         if pyEq (rowGet rp.2 rcol) (rowGet lp.2 lcol) then
           some (mergeRows leftName rightName lp.2 rp.2)
         else none)))
    []
    (by
      intro res lp _
      by_cases h : rowGet lp.2 lcol = Value.null <;> simp [h])]
  rw [foldl_append_form]
  simp

/-- Claim C8: with a well-formed, in-sync index on the right join column,
`_execute_join` takes the index path; the index path and the nested-loop
fallback produce the same multiset of merged rows; a left row with a NULL
join-key value contributes nothing; and every result row is the flat
merge of one left row and one Python-equal right row, with left columns
keyed `left.col` and right columns keyed `right.col` (the key renaming
performed by `mergeRows`). -/
theorem c8_join_paths_agree {db : DB} {leftName : String} {ji : JoinInfo}
    {rt : Table} {idx : Index} {leftRows : List (Nat × Row)}
    (hrt : alookup strEq ji.table db.tables = some rt)
    (hnd : keysND natEq rt.rows)
    (hidx : alookup strEq ji.right_column rt.indexes = some idx)
    (hwf : IndexWF idx)
    (hsync : IndexSynced idx ji.right_column rt.rows) :
    executeJoin db leftName leftRows ji
      = Except.ok (indexLoopJoin leftName ji.table ji.left_column idx
          leftRows rt.rows) ∧
    List.Perm
      (indexLoopJoin leftName ji.table ji.left_column idx leftRows rt.rows)
      (nestedLoopJoin leftName ji.table ji.left_column ji.right_column
        leftRows rt.rows) ∧
    (∀ m ∈ nestedLoopJoin leftName ji.table ji.left_column ji.right_column
        leftRows rt.rows,
      ∃ lp ∈ leftRows, ∃ rp ∈ rt.rows,
        rowGet lp.2 ji.left_column ≠ Value.null ∧
        pyEq (rowGet rp.2 ji.right_column) (rowGet lp.2 ji.left_column) = true ∧
        m = mergeRows leftName ji.table lp.2 rp.2) := by
  have hs := (synced_iff hwf).mp hsync
  refine ⟨?_, ?_, ?_⟩
  · unfold executeJoin
    rw [hrt]
    dsimp only
    rw [hidx]
  · rw [indexLoopJoin_eq_flatMap, nestedLoopJoin_eq_flatMap]
    refine flatMap_perm ?_
    intro lp _
    by_cases h : rowGet lp.2 ji.left_column = Value.null
    · simp [h]
    · rw [if_neg h, if_neg h]
      exact join_per_left_perm hnd hwf hs leftName ji.table lp.2 h
  · intro m hm
    rw [nestedLoopJoin_eq_flatMap] at hm
    obtain ⟨lp, hlp, hin⟩ := List.mem_flatMap.mp hm
    by_cases h : rowGet lp.2 ji.left_column = Value.null
    · rw [if_pos h] at hin
      simp at hin
    · rw [if_neg h] at hin
      obtain ⟨rp, hrp, hsome⟩ := List.mem_filterMap.mp hin
      by_cases hpe : pyEq (rowGet rp.2 ji.right_column) (rowGet lp.2 ji.left_column) = true
      · rw [if_pos hpe] at hsome
        exact ⟨lp, hlp, rp, hrp, h, hpe, (Option.some.inj hsome).symm⟩
      · rw [if_neg hpe] at hsome
        simp at hsome

/-- Claim C8 witness: the join conclusions at the concrete state `joinDb`
(`SELECT * FROM l INNER JOIN r ON l.k = r.k` with one matching row pair). -/
theorem c8_witness :
    executeJoin joinDb "l" [(1, [("k", Value.int 2)])] (JoinInfo.mk "r" "k" "k")
      = Except.ok (indexLoopJoin "l" "r" "k"
          (Index.mk "k" true [(Value.int 2, [1])])
          [(1, [("k", Value.int 2)])] [(1, [("k", Value.int 2)])]) ∧
    List.Perm
      (indexLoopJoin "l" "r" "k" (Index.mk "k" true [(Value.int 2, [1])])
        [(1, [("k", Value.int 2)])] [(1, [("k", Value.int 2)])])
      (nestedLoopJoin "l" "r" "k" "k"
        [(1, [("k", Value.int 2)])] [(1, [("k", Value.int 2)])]) ∧
    (∀ m ∈ nestedLoopJoin "l" "r" "k" "k"
        [(1, [("k", Value.int 2)])] [(1, [("k", Value.int 2)])],
      ∃ lp ∈ [(1, [("k", Value.int 2)])], ∃ rp ∈ [(1, [("k", Value.int 2)])],
        rowGet lp.2 "k" ≠ Value.null ∧
        pyEq (rowGet rp.2 "k") (rowGet lp.2 "k") = true ∧
        m = mergeRows "l" "r" lp.2 rp.2) :=
  @c8_join_paths_agree joinDb "l" (JoinInfo.mk "r" "k" "k")
    (Table.mk [Column.mk "k" DataType.INT false true]
      [(1, [("k", Value.int 2)])]
      [("k", Index.mk "k" true [(Value.int 2, [1])])]
      2)
    (Index.mk "k" true [(Value.int 2, [1])])
    [(1, [("k", Value.int 2)])]
    (by decide) (by decide) (by decide) (by decide) (by decide)

/-- Claim C10: for an INT column, type validation accepts booleans
(Python `bool` is a subclass of `int`), so `INSERT INTO t (a) VALUES
(TRUE)` on `CREATE TABLE t (a INT)` succeeds and stores the boolean, and
an UPDATE to FALSE also succeeds. -/
theorem c10_bool_accepted_as_int :
    pyParseValue "TRUE" = Value.bool true ∧
    (Column.mk "a" DataType.INT false false).validate_value (Value.bool true) = true ∧
    (execStmt intTableDb (Stmt.insert "t" none [Value.bool true])).2
      = Except.ok (ExecResult.rowId 1) ∧
    ((alookup strEq "t"
        (execStmt intTableDb (Stmt.insert "t" none [Value.bool true])).1.tables).map
      Table.rows) = some [(1, [("a", Value.bool true)])] ∧
    (execStmt (execStmt intTableDb (Stmt.insert "t" none [Value.bool true])).1
        (Stmt.update "t" [("a", Value.bool false)] none)).2
      = Except.ok (ExecResult.updatedCount 1) := by
  refine ⟨by decide, by decide, by decide, by decide, by decide⟩

theorem mem_eq_of_length_le_one {α : Type} {l : List α} {a b : α}
    (hlen : l.length ≤ 1) (ha : a ∈ l) (hb : b ∈ l) : a = b := by
  cases l with
  | nil => simp at ha
  | cons x rest =>
    cases rest with
    | nil =>
      simp at ha hb
      rw [ha, hb]
    | cons y rest2 => simp at hlen

/-- Claim C2: in every reachable engine state, for every table and every
column marked primary or unique, no two distinct row-ids hold equal
non-null values for that column, and the column's index maps no value to
more than one row-id. -/
theorem c2_flagged_columns_injective {db : DB} (hr : Reachable db) :
    ∀ e ∈ db.tables, ∀ col ∈ (e.2).schema,
      (col.is_primary = true ∨ col.is_unique = true) →
      (∀ p ∈ (e.2).rows, ∀ q ∈ (e.2).rows,
        rowGet p.2 col.name ≠ Value.null →
        pyEq (rowGet p.2 col.name) (rowGet q.2 col.name) = true →
        p.1 = q.1) ∧
      (∀ ip ∈ (e.2).indexes, ip.1 = col.name →
        ∀ ent ∈ (ip.2).entries, (ent.2).length ≤ 1) := by
  intro e he col hcol hflag
  obtain ⟨hndt, htwf⟩ := reachable_inv hr
  obtain ⟨hndr, hlt, hpos, hndi, hprops, horigin, hcolidx, hpk⟩ := htwf e he
  constructor
  · intro p hp q hq hnn heq
    have hsome := hcolidx col hcol hflag
    obtain ⟨idx, hlk⟩ := Option.isSome_iff_exists.mp hsome
    obtain ⟨k0, hk0mem, hk0eq⟩ := alookup_mem hlk
    have hk0 : k0 = col.name := (strEq_iff.mp hk0eq).symm
    subst hk0
    obtain ⟨hu, hiwf, hisync⟩ := hprops (col.name, idx) hk0mem
    have hs := (synced_iff hiwf).mp hisync
    have h1 : p.1 ∈ idx.search (rowGet p.2 col.name) :=
      (hs _ hnn p.1).mpr ⟨p, hp, rfl, pyEq_rfl _⟩
    have h2 : q.1 ∈ idx.search (rowGet p.2 col.name) :=
      (hs _ hnn q.1).mpr ⟨q, hq, rfl, by rw [pyEq_symm]; exact heq⟩
    exact mem_eq_of_length_le_one (search_len_le_one hiwf hu) h1 h2
  · intro ip hip hipn ent hent
    obtain ⟨hu, hiwf, _⟩ := hprops ip hip
    exact hiwf.2.2 hu ent hent

/-- Claim C2 witness: in the reachable state `twoRowDb`, row 1 can only
collide with itself on the unique `email` column, and the email index
entry for `a@x.com` holds a single row-id. -/
theorem c2_witness :
    (1 : Nat) = 1 ∧ ([1] : List Nat).length ≤ 1 := by
  have h := @c2_flagged_columns_injective twoRowDb
    (Reachable.step _ _ (Reachable.step _ _ (Reachable.step _ _ Reachable.init)))
    ("users", Table.mk
      [Column.mk "id" DataType.INT false false,
       Column.mk "email" DataType.TEXT false true]
      [(1, [("id", Value.int 1), ("email", Value.str "a@x.com")]),
       (2, [("id", Value.int 2), ("email", Value.str "b@x.com")])]
      [("email", Index.mk "email" true
        [(Value.str "a@x.com", [1]), (Value.str "b@x.com", [2])])]
      3)
    (by decide)
    (Column.mk "email" DataType.TEXT false true) (by decide)
    (Or.inr rfl)
  exact ⟨h.1 (1, [("id", Value.int 1), ("email", Value.str "a@x.com")]) (by decide)
      (1, [("id", Value.int 1), ("email", Value.str "a@x.com")]) (by decide)
      (by decide) (by decide),
    h.2 ("email", Index.mk "email" true
        [(Value.str "a@x.com", [1]), (Value.str "b@x.com", [2])]) (by decide)
      rfl (Value.str "a@x.com", [1]) (by decide)⟩

/-- Claim C3 counterexample: within one executor lifetime row-ids do grow
(`delMaxDb` has next_row_id 3 and a fresh insert gets id 3), but a fresh
executor rebuilt from the same storage recomputes next_row_id as
max-surviving-id + 1 = 2 and hands out id 2 again — an id previously
assigned to the deleted row. -/
theorem c3_counterexample :
    (execStmt (execStmt intTableDb (Stmt.insert "t" none [Value.int 1])).1
        (Stmt.insert "t" none [Value.int 2])).2 = Except.ok (ExecResult.rowId 2) ∧
    (alookup strEq "t" delMaxDb.tables).map Table.next_row_id = some 3 ∧
    (execInsert delMaxDb "t" none [Value.int 5]).2 = Except.ok 3 ∧
    (loadDB delMaxDb.disk).map
      (fun db2 => (alookup strEq "t" db2.tables).map Table.next_row_id)
      = Except.ok (some 2) ∧
    (loadDB delMaxDb.disk).map
      (fun db2 => (execInsert db2 "t" none [Value.int 3]).2)
      = Except.ok (Except.ok 2) :=
  ⟨by decide, by decide, by decide, by decide, by decide⟩

theorem execInsertRow_fresh {db : DB} {name : String} {t : Table}
    {colNames : List String} {values : List Value} {rid : Nat}
    (hok : (execInsertRow db name t colNames values).2 = Except.ok rid) :
    rid = t.next_row_id ∧
    (alookup strEq name (execInsertRow db name t colNames values).1.tables).map
      Table.next_row_id = some (t.next_row_id + 1) := by
  unfold execInsertRow at hok ⊢
  by_cases harity : colNames.length ≠ values.length
  · rw [if_pos harity] at hok
    exact absurd hok (by simp)
  · rw [if_neg harity] at hok ⊢
    cases hbr : buildRowData t.schema (colNames.zip values) [] with
    | error e =>
      rw [hbr] at hok
      exact absurd hok (by simp)
    | ok row0 =>
      rw [hbr] at hok
      dsimp only at hok ⊢
      cases hcc : checkConstraints t (fillMissing t.schema row0) none with
      | error e =>
        rw [hcc] at hok
        exact absurd hok (by simp)
      | ok u =>
        cases u
        rw [hcc] at hok
        dsimp only at hok ⊢
        cases hil : (insertIndexLoop (fillMissing t.schema row0) t.next_row_id
            t.indexes).2 with
        | some cn =>
          rw [hil] at hok
          exact absurd hok (by simp)
        | none =>
          rw [hil] at hok
          dsimp only at hok ⊢
          refine ⟨(Except.ok.inj hok).symm, ?_⟩
          rw [alookup_aset_self isEqv_strEq]
          rfl

/-- Claim C3 (amended): inside one executor lifetime the claim holds — a
successful insert into a reachable state hands out exactly the table's
current next_row_id, which is positive and strictly above every stored
row-id, and bumps the counter; only reconstruction from storage breaks
never-reuse. -/
theorem c3_amended_fresh_row_ids {db : DB} {name : String} {t : Table}
    {cols : Option (List String)} {values : List Value} {rid : Nat}
    (hr : Reachable db)
    (ht : alookup strEq name db.tables = some t)
    (hok : (execInsert db name cols values).2 = Except.ok rid) :
    rid = t.next_row_id ∧ 1 ≤ rid ∧ (∀ p ∈ t.rows, p.1 < rid) ∧
    (alookup strEq name (execInsert db name cols values).1.tables).map
      Table.next_row_id = some (rid + 1) := by
  obtain ⟨hndt, htwf⟩ := reachable_inv hr
  have hwf : TableWF t := by
    obtain ⟨k0, hk0, _⟩ := alookup_mem ht
    exact htwf (k0, t) hk0
  obtain ⟨hndr, hlt, hpos, _, _, _, _, _⟩ := hwf
  have key : rid = t.next_row_id ∧
      (alookup strEq name (execInsert db name cols values).1.tables).map
        Table.next_row_id = some (t.next_row_id + 1) := by
    unfold execInsert at hok ⊢
    rw [ht] at hok ⊢
    dsimp only at hok ⊢
    cases cols with
    | none => exact execInsertRow_fresh hok
    | some cs =>
      cases cs with
      | nil => exact execInsertRow_fresh hok
      | cons c cs2 => exact execInsertRow_fresh hok
  obtain ⟨h1, h2⟩ := key
  subst h1
  exact ⟨rfl, hpos, hlt, h2⟩

/-- Claim C3 (amended) witness: inserting into `delMaxDb` (whose table
has rows `[(1, …)]` and next_row_id 3) yields id 3 and counter 4. -/
theorem c3_amended_witness :
    (3 : Nat) = 3 ∧ 1 ≤ 3 ∧ (1 : Nat) < 3 ∧
    (alookup strEq "t" (execInsert delMaxDb "t" none [Value.int 5]).1.tables).map
      Table.next_row_id = some 4 := by
  have h := @c3_amended_fresh_row_ids delMaxDb "t"
    (Table.mk [Column.mk "a" DataType.INT false false]
      [(1, [("a", Value.int 1)])] [] 3)
    none [Value.int 5] 3
    (Reachable.step _ _ (Reachable.step _ _ (Reachable.step _ _
      (Reachable.step _ _ Reachable.init))))
    (by decide) (by decide)
  exact ⟨h.1, h.2.1, h.2.2.1 (1, [("a", Value.int 1)]) (by decide), h.2.2.2⟩

/-- Claim C5 counterexample: in `c5db` (`u` unique, `p` primary, one row
`(u=1, p=1)`), inserting `(u=1, p=NULL)` assembles a row that is null in
the primary column `p`, yet the statement fails with the duplicate-value
error for the earlier column `u`, not with the null-primary-key kind the
claim promises. -/
theorem c5_counterexample :
    (alookup strEq "t" c5db.tables).map
      (fun t => t.schema.map (fun c => (c.name, c.is_primary)))
      = some [("u", false), ("p", true)] ∧
    (buildRowData
      [Column.mk "u" DataType.INT false true, Column.mk "p" DataType.INT true true]
      (["u", "p"].zip [Value.int 1, Value.null]) []).map
      (fun r => rowGet (fillMissing
        [Column.mk "u" DataType.INT false true, Column.mk "p" DataType.INT true true]
        r) "p")
      = Except.ok Value.null ∧
    (execStmt c5db (Stmt.insert "t" none [Value.int 1, Value.null])).2
      = Except.error (ExecErr.duplicateValue "u" (Value.int 1)) :=
  ⟨by decide, by decide, by decide⟩

theorem checkConstraintsCols_null_pk {indexes : List (String × Index)} {row : Row}
    {ex : Option Nat} :
    ∀ {cols : List Column},
      (∃ col ∈ cols, col.is_primary = true ∧ rowGet row col.name = Value.null) →
      ∃ err, checkConstraintsCols indexes row ex cols = Except.error err
  | [], h => absurd h (by simp)
  | col :: rest, h => by
    by_cases h1 : col.is_primary = true ∧ rowGet row col.name = Value.null
    · exact ⟨ExecErr.nullPrimaryKey col.name, by
        simp only [checkConstraintsCols]
        rw [if_pos h1]⟩
    · have hrest : ∃ c ∈ rest, c.is_primary = true ∧
          rowGet row c.name = Value.null := by
        obtain ⟨c, hc, hcp⟩ := h
        cases List.mem_cons.mp hc with
        | inl he => exact absurd (he ▸ hcp) h1
        | inr hm => exact ⟨c, hm, hcp⟩
      obtain ⟨err, herr⟩ := @checkConstraintsCols_null_pk indexes row ex rest hrest
      simp only [checkConstraintsCols]
      rw [if_neg h1]
      by_cases h2 : (col.is_primary = true ∨ col.is_unique = true) ∧
          rowGet row col.name ≠ Value.null
      · rw [if_pos h2]
        cases hlk : alookup strEq col.name indexes with
        | none => exact ⟨ExecErr.keyError, rfl⟩
        | some idx =>
          dsimp only
          by_cases h3 : idx.has_value (rowGet row col.name) = true
          · rw [if_pos h3]
            by_cases h4 : (match ex with
                | some e => (idx.search (rowGet row col.name)).filter
                    (fun r => decide (r ≠ e))
                | none => idx.search (rowGet row col.name)).isEmpty = true
            · rw [if_pos h4]
              exact ⟨err, herr⟩
            · rw [if_neg h4]
              exact ⟨ExecErr.duplicateValue col.name (rowGet row col.name), rfl⟩
          · rw [if_neg h3]
            exact ⟨err, herr⟩
      · rw [if_neg h2]
        exact ⟨err, herr⟩

/-- Claim C5 (amended): no reachable table stores a null in a primary
column, and a tentative row that is null in some primary column always
makes the constraint check — hence Insert and Update — fail; but the
error kind is the first violation in schema order, which an earlier
column's duplicate can make duplicate-value rather than
null-primary-key. -/
theorem c5_amended_null_pk_rejected {db : DB} (hr : Reachable db)
    (t : Table) (row : Row) (ex : Option Nat)
    (hnull : ∃ col ∈ t.schema, col.is_primary = true ∧
      rowGet row col.name = Value.null) :
    (∀ e ∈ db.tables, ∀ col ∈ (e.2).schema, col.is_primary = true →
      ∀ p ∈ (e.2).rows, rowGet p.2 col.name ≠ Value.null) ∧
    (∃ err, checkConstraints t row ex = Except.error err) := by
  obtain ⟨hndt, htwf⟩ := reachable_inv hr
  refine ⟨?_, checkConstraintsCols_null_pk hnull⟩
  intro e he col hc hp p hpr
  obtain ⟨_, _, _, _, _, _, _, hpk⟩ := htwf e he
  exact hpk col hc hp p hpr

/-- Claim C5 (amended) witness: in the reachable `c5db` the stored row is
non-null in the primary column `p`, and the tentative row
`(u=2, p=NULL)` fails the constraint check. -/
theorem c5_witness :
    rowGet [("u", Value.int 1), ("p", Value.int 1)] "p" ≠ Value.null ∧
    (∃ err, checkConstraints
      (Table.mk
        [Column.mk "u" DataType.INT false true, Column.mk "p" DataType.INT true true]
        [(1, [("u", Value.int 1), ("p", Value.int 1)])]
        [("u", Index.mk "u" true [(Value.int 1, [1])]),
         ("p", Index.mk "p" true [(Value.int 1, [1])])]
        2)
      [("u", Value.int 2), ("p", Value.null)] none = Except.error err) := by
  have h := @c5_amended_null_pk_rejected c5db
    (Reachable.step _ _ (Reachable.step _ _ Reachable.init))
    (Table.mk
      [Column.mk "u" DataType.INT false true, Column.mk "p" DataType.INT true true]
      [(1, [("u", Value.int 1), ("p", Value.int 1)])]
      [("u", Index.mk "u" true [(Value.int 1, [1])]),
       ("p", Index.mk "p" true [(Value.int 1, [1])])]
      2)
    [("u", Value.int 2), ("p", Value.null)] none
    (by decide)
  exact ⟨h.1 ("t", Table.mk
      [Column.mk "u" DataType.INT false true, Column.mk "p" DataType.INT true true]
      [(1, [("u", Value.int 1), ("p", Value.int 1)])]
      [("u", Index.mk "u" true [(Value.int 1, [1])]),
       ("p", Index.mk "p" true [(Value.int 1, [1])])]
      2) (by decide)
      (Column.mk "p" DataType.INT true true) (by decide) rfl
      (1, [("u", Value.int 1), ("p", Value.int 1)]) (by decide),
    h.2⟩

end RDBMS
